import Mathlib

/-!
Verification of the document-worker specification against a shallow embedding
of the source (ds-wizard/document-worker).  Pure functions of the source are
translated into Lean functions; database- and filesystem-effecting code is
modelled by explicit state passing; Python exceptions become `Except` values.
Bytes of UTF-8 encoded payloads are represented by the `String`/`List Char`
they encode (UTF-8 encoding is injective, so byte equalities are equivalent to
the stated string equalities).
-/

namespace DocWorker

/-! ## JSON values and `json.dumps(context, indent=2, sort_keys=True)`

The `json` step (document_worker/templates/steps.py, `JSONStep.execute_first`)
serializes the context with `json.dumps(context, indent=2, sort_keys=True)`
and encodes the result as UTF-8.  JSON numbers are modelled as integers
(contexts come from the job ledger as JSON objects); floats are outside this
embedding.  Strings are sequences of Unicode scalar values (`List Char`).
-/

inductive Json where
  | null : Json
  | bool (b : Bool) : Json
  | int (n : Int) : Json
  | str (s : List Char) : Json
  | arr (elems : List Json) : Json
  | obj (members : List (List Char × Json)) : Json
deriving Repr

/-- Decimal digits of a natural number, most significant first, as emitted by
Python `repr` on a non-negative int.  Accumulator variant. -/
def natCharsAux (n : Nat) (acc : List Char) : List Char :=
  let acc' := Char.ofNat (48 + n % 10) :: acc
  if _h : n / 10 = 0 then acc' else natCharsAux (n / 10) acc'
termination_by n
decreasing_by exact Nat.div_lt_self (by omega) (by omega)

def natChars (n : Nat) : List Char :=
  natCharsAux n []

/-- Python `repr` of an int: optional minus sign followed by decimal digits. -/
def intChars (i : Int) : List Char :=
  if i < 0 then '-' :: natChars i.natAbs else natChars i.natAbs

/-- Lower-case hexadecimal digit, as used by Python `json.dumps` in
backslash-u escapes. -/
def hexDigitChar (n : Nat) : Char :=
  Char.ofNat (if n < 10 then 48 + n else 87 + n)

/-- Four lower-case hex digits of a code unit below 0x10000. -/
def hex4 (n : Nat) : List Char :=
  [hexDigitChar (n / 4096 % 16), hexDigitChar (n / 256 % 16),
   hexDigitChar (n / 16 % 16), hexDigitChar (n % 16)]

/-- Escape of a single character exactly as Python `json.dumps` (with its
default `ensure_ascii=True`) renders it inside a string literal: the two
dedicated escapes for quote and backslash, the short escapes for the five
control characters that have them, backslash-u escapes for the remaining
control characters and for every character above 0x7e (a surrogate pair for
characters beyond the basic multilingual plane), and the character itself for
printable ASCII. -/
def escapeChar (c : Char) : List Char :=
  if c = '\"' then ['\\', '\"']
  else if c = '\\' then ['\\', '\\']
  else if c = '\n' then ['\\', 'n']
  else if c = '\t' then ['\\', 't']
  else if c = '\x0d' then ['\\', 'r']
  else if c = '\x08' then ['\\', 'b']
  else if c = '\x0c' then ['\\', 'f']
  else if c.toNat < 32 then '\\' :: 'u' :: hex4 c.toNat
  else if c.toNat < 127 then [c]
  else if c.toNat < 65536 then '\\' :: 'u' :: hex4 c.toNat
  else
    ('\\' :: 'u' :: hex4 (55296 + (c.toNat - 65536) / 1024)) ++
    ('\\' :: 'u' :: hex4 (56320 + (c.toNat - 65536) % 1024))

def escapeList : List Char → List Char
  | [] => []
  | c :: cs => escapeChar c ++ escapeList cs

/-- JSON string literal: quote, escaped characters, quote. -/
def escapeString (s : List Char) : List Char :=
  '\"' :: escapeList s ++ ['\"']

/-- Newline plus the two-space-per-level indentation that
`json.dumps(..., indent=2)` emits before each item and closing bracket. -/
def nlIndent (lvl : Nat) : List Char :=
  '\n' :: List.replicate (2 * lvl) ' '

/-- Key order used by `sort_keys=True`: Python compares strings
lexicographically by code point. -/
def keyLe (a b : List Char × Json) : Prop :=
  a.1 ≤ b.1

instance : DecidableRel keyLe := fun a b => inferInstanceAs (Decidable (a.1 ≤ b.1))

/- Totality and transitivity of the key order, for the correctness lemmas of
the insertion sort that models Python's `sorted`. -/
instance : IsTotal (List Char × Json) keyLe :=
  ⟨fun a b => le_total a.1 b.1⟩

instance : IsTrans (List Char × Json) keyLe :=
  ⟨fun _ _ _ h1 h2 => le_trans h1 h2⟩

/-- Sorting of the members of a JSON object by key, as `sort_keys=True`
performs (Python `sorted` is a stable sort; so is insertion sort). -/
def sortPairs (kvs : List (List Char × Json)) : List (List Char × Json) :=
  kvs.insertionSort keyLe

mutual
/-- Recursive key sort of every object in a JSON value.  `json.dumps` with
`sort_keys=True` sorts the members of each object as it serializes; this
pre-pass performs all those sorts up front, so the plain printer below can
emit members in list order. -/
def sortJson : Json → Json
  | .null => .null
  | .bool b => .bool b
  | .int n => .int n
  | .str s => .str s
  | .arr xs => .arr (sortJsonList xs)
  | .obj kvs => .obj (sortPairs (sortJsonPairs kvs))

def sortJsonList : List Json → List Json
  | [] => []
  | x :: xs => sortJson x :: sortJsonList xs

def sortJsonPairs : List (List Char × Json) → List (List Char × Json)
  | [] => []
  | (k, v) :: ps => (k, sortJson v) :: sortJsonPairs ps
end

/-- Characters of the keyword `null`. -/
def nullChars : List Char :=
  ['n', 'u', 'l', 'l']

/-- Characters of the keyword `true`. -/
def trueChars : List Char :=
  ['t', 'r', 'u', 'e']

/-- Characters of the keyword `false`. -/
def falseChars : List Char :=
  ['f', 'a', 'l', 's', 'e']

mutual
/-- Serialization of a JSON value at indentation level `lvl`, exactly as
`json.dumps(v, indent=2)` renders it (with the separators that Python
defaults to when `indent` is given).  Members of objects are emitted in
list order; the key sort demanded by `sort_keys=True` is applied by
`jsonDumps` below through the `sortJson` pre-pass. -/
def dumpVal (lvl : Nat) : Json → List Char
  | .null => nullChars
  | .bool true => trueChars
  | .bool false => falseChars
  | .int i => intChars i
  | .str s => escapeString s
  | .arr [] => ['[', ']']
  | .arr (x :: xs) =>
    '[' :: (nlIndent (lvl + 1) ++ dumpVal (lvl + 1) x ++ dumpItems (lvl + 1) xs ++
      nlIndent lvl ++ [']'])
  | .obj [] => ['{', '}']
  | .obj (p :: ps) =>
    '{' :: (nlIndent (lvl + 1) ++ dumpPair (lvl + 1) p ++ dumpPairs (lvl + 1) ps ++
      nlIndent lvl ++ ['}'])

/-- Remaining elements of a non-empty array: comma, newline-indent, element. -/
def dumpItems (lvl : Nat) : List Json → List Char
  | [] => []
  | x :: xs => ',' :: (nlIndent lvl ++ dumpVal lvl x ++ dumpItems lvl xs)

/-- One object member: key string literal, colon, space, value. -/
def dumpPair (lvl : Nat) : List Char × Json → List Char
  | (k, v) => escapeString k ++ ':' :: ' ' :: dumpVal lvl v

/-- Remaining members of a non-empty object. -/
def dumpPairs (lvl : Nat) : List (List Char × Json) → List Char
  | [] => []
  | p :: ps => ',' :: (nlIndent lvl ++ dumpPair lvl p ++ dumpPairs lvl ps)
end

/-- The serialized context: `json.dumps(context, indent=2, sort_keys=True)`,
starting at indentation level 0. -/
def jsonDumps (v : Json) : List Char :=
  dumpVal 0 (sortJson v)

/-! ### A JSON decoder

The round-trip property quantifies over a decode of the produced bytes; this
recursive-descent decoder models `json.loads` (restricted, like the printer,
to integer numbers).  It skips the four JSON whitespace characters between
tokens, so it is insensitive to the exact indentation the printer emits. -/

def isWsChar (c : Char) : Bool :=
  c = ' ' || c = '\n' || c = '\t' || c = '\x0d'

def skipWs : List Char → List Char
  | [] => []
  | c :: cs => if isWsChar c then skipWs cs else c :: cs

def isDigitChar (c : Char) : Bool :=
  48 ≤ c.toNat && c.toNat ≤ 57

/-- Maximal run of decimal digits, folded into a number. -/
def parseNatAux (acc : Nat) : List Char → Nat × List Char
  | [] => (acc, [])
  | c :: cs =>
    if isDigitChar c then parseNatAux (acc * 10 + (c.toNat - 48)) cs else (acc, c :: cs)

/-- Value of one hexadecimal digit. -/
def hexVal (c : Char) : Option Nat :=
  if 48 ≤ c.toNat && c.toNat ≤ 57 then some (c.toNat - 48)
  else if 97 ≤ c.toNat && c.toNat ≤ 102 then some (c.toNat - 87)
  else if 65 ≤ c.toNat && c.toNat ≤ 70 then some (c.toNat - 55)
  else none

/-- Translation of a short escape character to the character it denotes. -/
def shortEscape (e : Char) : Option Char :=
  if e = '\"' then some '\"'
  else if e = '\\' then some '\\'
  else if e = '/' then some '/'
  else if e = 'n' then some '\n'
  else if e = 't' then some '\t'
  else if e = 'r' then some '\x0d'
  else if e = 'b' then some '\x08'
  else if e = 'f' then some '\x0c'
  else none

/-- Reading of exactly four hexadecimal digits. -/
def parseHex4 : List Char → Option (Nat × List Char)
  | a :: b :: c :: d :: cs =>
    match hexVal a, hexVal b, hexVal c, hexVal d with
    | some x, some y, some z, some w => some (((x * 16 + y) * 16 + z) * 16 + w, cs)
    | _, _, _, _ => none
  | _ => none

/-- Decoding of the body of a JSON string literal up to and past the closing
quote.  Backslash-u escapes of a high surrogate followed by one of a low
surrogate are combined into a single character, as `json.loads` does.  The
fuel argument only bounds the recursion depth; one unit is spent per decoded
character, so any fuel above the decoded length gives the same result. -/
def parseStringBody : Nat → List Char → Option (List Char × List Char)
  | 0, _ => none
  | _ + 1, [] => none
  | fuel + 1, c :: cs =>
    if c = '\"' then some ([], cs)
    else if c = '\\' then
      match cs with
      | [] => none
      | e :: cs1 =>
        if e = 'u' then
          match parseHex4 cs1 with
          | none => none
          | some (n, cs2) =>
            if 55296 ≤ n ∧ n < 56320 then
              match cs2 with
              | s1 :: s2 :: cs2b =>
                if s1 = '\\' ∧ s2 = 'u' then
                  match parseHex4 cs2b with
                  | none => none
                  | some (m, cs3) =>
                    if 56320 ≤ m ∧ m < 57344 then
                      match parseStringBody fuel cs3 with
                      | some (s, rest) =>
                        some (Char.ofNat (65536 + (n - 55296) * 1024 + (m - 56320)) :: s,
                          rest)
                      | none => none
                    else none
                else none
              | _ => none
            else if 56320 ≤ n ∧ n < 57344 then none
            else
              match parseStringBody fuel cs2 with
              | some (s, rest) => some (Char.ofNat n :: s, rest)
              | none => none
        else
          match shortEscape e with
          | some ch =>
            match parseStringBody fuel cs1 with
            | some (s, rest) => some (ch :: s, rest)
            | none => none
          | none => none
    else
      match parseStringBody fuel cs with
      | some (s, rest) => some (c :: s, rest)
      | none => none

/-- Reading of a fixed literal tail (the characters of `null`, `true`,
`false` after their first): the input must begin with exactly these
characters. -/
def stripLits : List Char → List Char → Option (List Char)
  | [], cs => some cs
  | _ :: _, [] => none
  | l :: ls, c :: cs => if c = l then stripLits ls cs else none

mutual
/-- Fuel-indexed decoder for one JSON value.  The head character selects the
production; whitespace must already have been skipped. -/
def parseValue : Nat → List Char → Option (Json × List Char)
  | 0, _ => none
  | _ + 1, [] => none
  | fuel + 1, c :: cs =>
    if c = 'n' then (stripLits ['u', 'l', 'l'] cs).map (fun rest => (Json.null, rest))
    else if c = 't' then
      (stripLits ['r', 'u', 'e'] cs).map (fun rest => (Json.bool true, rest))
    else if c = 'f' then
      (stripLits ['a', 'l', 's', 'e'] cs).map (fun rest => (Json.bool false, rest))
    else if c = '\"' then
      (parseStringBody cs.length cs).map (fun p => (Json.str p.1, p.2))
    else if c = '-' then
      match cs with
      | [] => none
      | d :: _ =>
        if isDigitChar d then
          let p := parseNatAux 0 cs
          some (.int (-(p.1 : Int)), p.2)
        else none
    else if isDigitChar c then
      let p := parseNatAux 0 (c :: cs)
      some (.int (p.1 : Int), p.2)
    else if c = '[' then
      match skipWs cs with
      | [] => none
      | d :: rest =>
        if d = ']' then some (.arr [], rest)
        else (parseElems fuel (d :: rest)).map (fun p => (Json.arr p.1, p.2))
    else if c = '{' then
      match skipWs cs with
      | [] => none
      | d :: rest =>
        if d = '}' then some (.obj [], rest)
        else (parseMembers fuel (d :: rest)).map (fun p => (Json.obj p.1, p.2))
    else none

/-- Decoder for the elements of a non-empty array, up to and past the
closing bracket. -/
def parseElems : Nat → List Char → Option (List Json × List Char)
  | 0, _ => none
  | fuel + 1, cs =>
    match parseValue fuel cs with
    | none => none
    | some (v, rest) =>
      match skipWs rest with
      | [] => none
      | d :: rest2 =>
        if d = ',' then (parseElems fuel (skipWs rest2)).map (fun p => (v :: p.1, p.2))
        else if d = ']' then some ([v], rest2)
        else none

/-- Decoder for the members of a non-empty object, up to and past the
closing brace. -/
def parseMembers : Nat → List Char → Option (List (List Char × Json) × List Char)
  | 0, _ => none
  | fuel + 1, cs =>
    match cs with
    | [] => none
    | c :: cs1 =>
      if c = '\"' then
        match parseStringBody cs1.length cs1 with
        | none => none
        | some (k, rest) =>
          match skipWs rest with
          | [] => none
          | d :: rest2 =>
            if d = ':' then
              match parseValue fuel (skipWs rest2) with
              | none => none
              | some (v, rest3) =>
                match skipWs rest3 with
                | [] => none
                | e :: rest4 =>
                  if e = ',' then
                    (parseMembers fuel (skipWs rest4)).map
                      (fun p => ((k, v) :: p.1, p.2))
                  else if e = '}' then some ([(k, v)], rest4)
                  else none
            else none
      else none
end

mutual
/-- Fuel sufficient for `parseValue` to decode the printed form of a value. -/
def jfuel : Json → Nat
  | .null => 1
  | .bool _ => 1
  | .int _ => 1
  | .str _ => 1
  | .arr xs => 1 + jfuelList xs
  | .obj kvs => 1 + jfuelPairs kvs

def jfuelList : List Json → Nat
  | [] => 0
  | x :: xs => 1 + jfuel x + jfuelList xs

def jfuelPairs : List (List Char × Json) → Nat
  | [] => 0
  | (_, v) :: ps => 1 + jfuel v + jfuelPairs ps
end

/-- The decode of a complete JSON document: `json.loads` on the full byte
string, requiring that nothing but whitespace follows the value. -/
def jsonLoads (cs : List Char) : Option Json :=
  match parseValue (cs.length + 1) (skipWs cs) with
  | some (v, rest) => if skipWs rest = [] then some v else none
  | none => none

/-! ## Template filters (document_worker/templates/filters.py and the legacy
document_worker/filters.py) -/

/-- Body of the `while` loop of `of_alphabet` in
document_worker/templates/filters.py: `n, m = divmod(n, 26)`, append
`_alphabet[m]` (so the least significant letter comes first), stop when the
quotient reaches zero. -/
def ofAlphabetAux (n : Nat) (acc : List Char) : List Char :=
  let acc' := acc ++ [Char.ofNat (97 + n % 26)]
  if _h : n / 26 = 0 then acc' else ofAlphabetAux (n / 26) acc'
termination_by n
decreasing_by exact Nat.div_lt_self (by omega) (by omega)

/-- Current variant of `of_alphabet` (templates/filters.py, lines 25 to 32).
For a negative argument the Python loop body still runs once before the
guard is re-checked only after the break test, but the claim concerns
non-negative arguments, embedded here over `Nat`. -/
def of_alphabet (n : Nat) : String :=
  String.mk (ofAlphabetAux n [])

/-- Legacy variant of `of_alphabet` (document_worker/filters.py, line 17 to
18): `chr(n + ord('a') - 1)`. -/
def of_alphabet_legacy (n : Nat) : String :=
  String.mk [Char.ofNat (96 + n)]

/-- Modelled from the spec: the positional bijective base-26 labeling over
`a..z` that the specification prescribes for `of_alphabet`
(`0 maps to a, 25 to z, 26 to aa, 27 to ab, ...`). -/
def bijectiveAlphaChars (n : Nat) : List Char :=
  if _h : n < 26 then [Char.ofNat (97 + n)]
  else bijectiveAlphaChars (n / 26 - 1) ++ [Char.ofNat (97 + n % 26)]
termination_by n
decreasing_by
  have hlt : n / 26 < n := Nat.div_lt_self (by omega) (by omega)
  omega

/-- Modelled from the spec: string form of the bijective labeling. -/
def of_alphabet_bijective (n : Nat) : String :=
  String.mk (bijectiveAlphaChars n)

/-- Value/letter table `_romans` shared by both revisions of `roman`. -/
def romansTable : List (Nat × List Char) :=
  [(1000, ['M']), (900, ['C', 'M']), (500, ['D']), (400, ['C', 'D']),
   (100, ['C']), (90, ['X', 'C']), (50, ['L']), (40, ['X', 'L']),
   (10, ['X']), (9, ['I', 'X']), (5, ['V']), (4, ['I', 'V']), (1, ['I'])]

/-- Inner `while n >= i` loop of `roman`: append the letter group and
subtract the value while it still fits. -/
def romanInner (i : Nat) (r : List Char) (n : Nat) (acc : List Char) : List Char × Nat :=
  if _h : 0 < i ∧ i ≤ n then romanInner i r (n - i) (acc ++ r) else (acc, n)
termination_by n
decreasing_by omega

/-- The `for i, r in _romans` loop of `roman`, threading the accumulated
string and the remaining value through the table. -/
def romanFor : List (Nat × List Char) → Nat → List Char → List Char × Nat
  | [], n, acc => (acc, n)
  | (i, r) :: rest, n, acc =>
    let p := romanInner i r n acc
    romanFor rest p.2 p.1

/-- The `roman` filter (templates/filters.py, lines 35 to 42; identical in
the legacy filters.py).  The outer `while n > 0` loop runs the table pass;
because the table ends with the entry `(1, I)`, one pass drains any positive
`n` to zero, so the outer loop executes its body exactly once for positive
`n` and never for non-positive `n`. -/
def roman (n : Int) : String :=
  if 0 < n then String.mk (romanFor romansTable n.toNat []).1 else String.mk []

/-- Modelled from the spec: the classical additive Roman numeral of `n`,
digit by digit: repeated `M` for the thousands, and the classical digit
tables for hundreds, tens and units. -/
def romanUnitsTable (d : Nat) : List Char :=
  match d with
  | 1 => ['I'] | 2 => ['I', 'I'] | 3 => ['I', 'I', 'I'] | 4 => ['I', 'V']
  | 5 => ['V'] | 6 => ['V', 'I'] | 7 => ['V', 'I', 'I'] | 8 => ['V', 'I', 'I', 'I']
  | 9 => ['I', 'X'] | _ => []

def romanTensTable (d : Nat) : List Char :=
  match d with
  | 1 => ['X'] | 2 => ['X', 'X'] | 3 => ['X', 'X', 'X'] | 4 => ['X', 'L']
  | 5 => ['L'] | 6 => ['L', 'X'] | 7 => ['L', 'X', 'X'] | 8 => ['L', 'X', 'X', 'X']
  | 9 => ['X', 'C'] | _ => []

def romanHundredsTable (d : Nat) : List Char :=
  match d with
  | 1 => ['C'] | 2 => ['C', 'C'] | 3 => ['C', 'C', 'C'] | 4 => ['C', 'D']
  | 5 => ['D'] | 6 => ['D', 'C'] | 7 => ['D', 'C', 'C'] | 8 => ['D', 'C', 'C', 'C']
  | 9 => ['C', 'M'] | _ => []

/-- Concatenation of `k` copies of a letter group. -/
def joinN (k : Nat) (r : List Char) : List Char :=
  (List.replicate k r).flatten

/-- Modelled from the spec: classical additive Roman numeral, assembled from
the digit tables. -/
def romanSpec (n : Nat) : List Char :=
  joinN (n / 1000) ['M'] ++ romanHundredsTable (n / 100 % 10) ++
    romanTensTable (n / 10 % 10) ++ romanUnitsTable (n % 10)

/-! ## File formats (document_worker/documents.py) -/

/-- File format descriptor (`FileFormat` in document_worker/documents.py). -/
structure FileFormat where
  name : String
  content_type : String
  file_extension : String
deriving DecidableEq, Repr

/-- Python `FileFormat.__eq__`: two formats are equal iff their names are
(content type and extension are ignored). -/
def ffEq (a b : FileFormat) : Bool :=
  a.name == b.name

/-- Python `x in xs` over containers of `FileFormat`, which consult
`__eq__`/`__hash__` and therefore compare names only. -/
def ffMem (f : FileFormat) (xs : List FileFormat) : Bool :=
  xs.any (fun g => ffEq f g)

namespace FileFormats

def JSON : FileFormat := ⟨"json", "application/json", "json"⟩
def HTML : FileFormat := ⟨"html", "text/html", "html"⟩
def PDF : FileFormat := ⟨"pdf", "application/pdf", "pdf"⟩
def DOCX : FileFormat :=
  ⟨"docx", "application/vnd.openxmlformats-officedocument.wordprocessingml.document", "docx"⟩
def Markdown : FileFormat := ⟨"markdown", "text/markdown", "md"⟩
def ODT : FileFormat := ⟨"odt", "application/vnd.oasis.opendocument.text", "odt"⟩
def RST : FileFormat := ⟨"rst", "text/x-rst", "rst"⟩
def LaTeX : FileFormat := ⟨"latex", "application/x-tex", "tex"⟩
def EPUB : FileFormat := ⟨"epub", "application/epub+zip", "epub"⟩
def DocBook4 : FileFormat := ⟨"docbook4", "application/docbook+xml", "dbk"⟩
def DocBook5 : FileFormat := ⟨"docbook5", "application/docbook+xml", "dbk"⟩
def PPTX : FileFormat :=
  ⟨"pptx", "application/vnd.openxmlformats-officedocument.presentationml.presentation", "pptx"⟩
def RTF : FileFormat := ⟨"rtf", "application/rtf", "rtf"⟩
def ADoc : FileFormat := ⟨"asciidoc", "text/asciidoc", "adoc"⟩
def RDF_XML : FileFormat := ⟨"rdf", "application/rdf+xml", "rdf"⟩
def N3 : FileFormat := ⟨"n3", "text/n3", "n3"⟩
def NTRIPLES : FileFormat := ⟨"nt", "application/n-triples", "nt"⟩
def TURTLE : FileFormat := ⟨"ttl", "text/turtle", "ttl"⟩
def TRIG : FileFormat := ⟨"trig", "application/trig", "trig"⟩
def JSONLD : FileFormat := ⟨"jsonld", "application/ld+json", "jsonld"⟩

/-- The `FileFormats.get` lookup table (documents.py, lines 50 to 78): the
`known_formats` dict, returning `None` for unknown names. -/
def get (name : String) : Option FileFormat :=
  if name == "html" then some HTML
  else if name == "pdf" then some PDF
  else if name == "docx" then some DOCX
  else if name == "markdown" then some Markdown
  else if name == "odt" then some ODT
  else if name == "rst" then some RST
  else if name == "latex" then some LaTeX
  else if name == "json" then some JSON
  else if name == "epub" then some EPUB
  else if name == "docbook4" then some DocBook4
  else if name == "docbook5" then some DocBook5
  else if name == "pptx" then some PPTX
  else if name == "rtf" then some RTF
  else if name == "asciidoc" then some ADoc
  else if name == "rdf" then some RDF_XML
  else if name == "rdf/xml" then some RDF_XML
  else if name == "turtle" then some TURTLE
  else if name == "ttl" then some TURTLE
  else if name == "n3" then some N3
  else if name == "ntriples" then some NTRIPLES
  else if name == "n-triples" then some NTRIPLES
  else if name == "trig" then some TRIG
  else if name == "json-ld" then some JSONLD
  else if name == "jsonld" then some JSONLD
  else none

end FileFormats

/-- The artifact passed between steps (`DocumentFile` in documents.py);
`content` holds the UTF-8 decoded payload. -/
structure DocumentFile where
  file_format : FileFormat
  content : String
  encoding : String := "utf-8"
deriving DecidableEq, Repr

/-- The `FORMATS` dict of `RdfLibConvert` (conversions.py, lines 157 to
166), keyed by `FileFormat` values; Python dict lookup consults
`__hash__`/`__eq__`, hence the name. -/
def rdflibConvertTag (f : FileFormat) : Option String :=
  if ffEq f FileFormats.RDF_XML then some "xml"
  else if ffEq f FileFormats.N3 then some "n3"
  else if ffEq f FileFormats.NTRIPLES then some "ntriples"
  else if ffEq f FileFormats.TURTLE then some "turtle"
  else if ffEq f FileFormats.TRIG then some "trig"
  else if ffEq f FileFormats.JSONLD then some "json-ld"
  else none

/-! ## Steps (document_worker/templates/steps.py)

Python exceptions raised during step construction or execution become
`Except.error` values: `FormatStepException` carries the message built by
`Step.raise_exc`; a Python `AttributeError` (triggered in the source when an
f-string reads `.name` off the `None` that `FileFormats.get` returned) is a
distinct error. -/

inductive StepError where
  | formatStep (message : String) : StepError
  | attributeError : StepError
deriving DecidableEq, Repr

/-- `JSONStep.execute_first`: serialize the context and wrap it as a JSON
document file (the UTF-8 encode of the dumped text is the stored content). -/
def jsonStepExecuteFirst (context : Json) : Except StepError DocumentFile :=
  .ok ⟨FileFormats.JSON, String.mk (jsonDumps context), "utf-8"⟩

/-- `JSONStep.execute_follow`: always raises. -/
def jsonStepExecuteFollow (_document : DocumentFile) : Except StepError DocumentFile :=
  .error (.formatStep "Step \"json\" cannot process other files")

/-- Options of the jinja step (`Jinja2Step.__init__`). -/
structure JinjaOptions where
  root_file : String
  contentTypeOpt : Option String
  extensionOpt : Option String
deriving DecidableEq, Repr

/-- State built by `Jinja2Step.__init__` (steps.py, lines 57 to 63): the
defaults come from `FileFormats.HTML`, and the output format is
`FileFormat(extension, content_type, extension)` so its name IS the
extension option.  Loading of the Jinja2 environment itself touches the
filesystem and is outside this embedding. -/
structure JinjaStep where
  root_file : String
  content_type : String
  extension : String
  output_format : FileFormat
deriving DecidableEq, Repr

def jinjaInit (opts : JinjaOptions) : JinjaStep :=
  let ct := opts.contentTypeOpt.getD FileFormats.HTML.content_type
  let ext := opts.extensionOpt.getD FileFormats.HTML.file_extension
  { root_file := opts.root_file
    content_type := ct
    extension := ext
    output_format := ⟨ext, ct, ext⟩ }

/-- `Jinja2Step.execute_first`, with the rendering of the root template by
the Jinja2 engine abstracted into the `render` argument. -/
def jinjaStepExecuteFirst (render : Json → String) (s : JinjaStep)
    (context : Json) : Except StepError DocumentFile :=
  .ok ⟨s.output_format, render context, "utf-8"⟩

/-- `Jinja2Step.execute_follow`: always raises. -/
def jinjaStepExecuteFollow (_document : DocumentFile) : Except StepError DocumentFile :=
  .error (.formatStep "Step \"jinja\" cannot process other files")

/-- `WkHtmlToPdfStep.execute_first`: always raises. -/
def wkhtmltopdfExecuteFirst (_context : Json) : Except StepError DocumentFile :=
  .error (.formatStep "Step \"wkhtmltopdf\" cannot be first")

/-- `WkHtmlToPdfStep.execute_follow`: reject any input whose format differs
from HTML (Python `!=` delegates to `FileFormat.__eq__`), then run the
converter (abstracted into `conv`). -/
def wkhtmltopdfExecuteFollow (conv : String → String) (document : DocumentFile) :
    Except StepError DocumentFile :=
  if ¬ ffEq document.file_format FileFormats.HTML then
    .error (.formatStep ("WkHtmlToPdf does not support " ++
      document.file_format.name ++ " format as input"))
  else
    .ok ⟨FileFormats.PDF, conv document.content, "utf-8"⟩

/-- `PandocStep.INPUT_FORMATS` (steps.py, lines 129 to 137). -/
def pandocInputFormats : List FileFormat :=
  [FileFormats.DOCX, FileFormats.EPUB, FileFormats.HTML, FileFormats.LaTeX,
   FileFormats.Markdown, FileFormats.ODT, FileFormats.RST]

/-- `PandocStep.OUTPUT_FORMATS` (steps.py, lines 138 to 150). -/
def pandocOutputFormats : List FileFormat :=
  [FileFormats.ADoc, FileFormats.DocBook4, FileFormats.DocBook5,
   FileFormats.DOCX, FileFormats.EPUB, FileFormats.HTML, FileFormats.LaTeX,
   FileFormats.Markdown, FileFormats.ODT, FileFormats.RST, FileFormats.RTF]

/-- State built by a successful `PandocStep.__init__`. -/
structure PandocStep where
  input_format : FileFormat
  output_format : FileFormat
deriving DecidableEq, Repr

/-- `PandocStep.__init__` (steps.py, lines 155 to 163): look both options up
in `FileFormats.get` and reject formats outside the allowed sets.  When the
lookup returned `None`, the source's `raise_exc` f-string evaluates
`None.name` first, so the constructor dies with an `AttributeError` there;
when the lookup succeeded but the format is outside the set, it raises
`FormatStepException`. -/
def pandocInit (fromName toName : String) : Except StepError PandocStep :=
  match FileFormats.get fromName with
  | none => .error .attributeError
  | some inF =>
    if ¬ ffMem inF pandocInputFormats then
      .error (.formatStep ("Unknown input format \"" ++ inF.name ++ "\""))
    else
      match FileFormats.get toName with
      | none => .error .attributeError
      | some outF =>
        if ¬ ffMem outF pandocOutputFormats then
          .error (.formatStep ("Unknown output format \"" ++ outF.name ++ "\""))
        else
          .ok ⟨inF, outF⟩

/-- `PandocStep.execute_first`: always raises. -/
def pandocExecuteFirst (_s : PandocStep) (_context : Json) : Except StepError DocumentFile :=
  .error (.formatStep "Step \"pandoc\" cannot be first")

/-- `PandocStep.execute_follow` (steps.py, lines 168 to 178): the seam check
compares the incoming format with the declared input format via
`FileFormat.__eq__`; the conversion itself is abstracted into `conv`. -/
def pandocExecuteFollow (conv : String → String) (s : PandocStep)
    (document : DocumentFile) : Except StepError DocumentFile :=
  if ¬ ffEq document.file_format s.input_format then
    .error (.formatStep ("Unexpected input " ++ document.file_format.name ++
      " as input for pandoc"))
  else
    .ok ⟨s.output_format, conv document.content, "utf-8"⟩

/-- `RdfLibConvertStep.INPUT_FORMATS` = `OUTPUT_FORMATS` (steps.py, lines
184 to 193). -/
def rdflibFormats : List FileFormat :=
  [FileFormats.RDF_XML, FileFormats.N3, FileFormats.NTRIPLES,
   FileFormats.TURTLE, FileFormats.TRIG, FileFormats.JSONLD]

structure RdfLibConvertStep where
  input_format : FileFormat
  output_format : FileFormat
deriving DecidableEq, Repr

/-- `RdfLibConvertStep.__init__` (steps.py, lines 198 to 206), with the same
failure shape as `pandocInit`. -/
def rdflibInit (fromName toName : String) : Except StepError RdfLibConvertStep :=
  match FileFormats.get fromName with
  | none => .error .attributeError
  | some inF =>
    if ¬ ffMem inF rdflibFormats then
      .error (.formatStep ("Unknown input format \"" ++ inF.name ++ "\""))
    else
      match FileFormats.get toName with
      | none => .error .attributeError
      | some outF =>
        if ¬ ffMem outF rdflibFormats then
          .error (.formatStep ("Unknown output format \"" ++ outF.name ++ "\""))
        else
          .ok ⟨inF, outF⟩

/-- `RdfLibConvertStep.execute_first`: always raises. -/
def rdflibExecuteFirst (_s : RdfLibConvertStep) (_context : Json) :
    Except StepError DocumentFile :=
  .error (.formatStep "Step \"rdflib-convert\" cannot be first")

/-- `RdfLibConvertStep.execute_follow` (steps.py, lines 211 to 219). -/
def rdflibExecuteFollow (conv : String → String) (s : RdfLibConvertStep)
    (document : DocumentFile) : Except StepError DocumentFile :=
  if ¬ ffEq document.file_format s.input_format then
    .error (.formatStep ("Unexpected input " ++ document.file_format.name ++
      " as input for rdflib-convert (expecting " ++ s.input_format.name ++ ")"))
  else
    .ok ⟨s.output_format, conv document.content, "utf-8"⟩

/-! ## Job coordinator and document rows (document_worker/worker.py and
document_worker/connection/database.py)

The relevant shared state is the single document row a job addresses plus
the queue of job rows; timestamps are abstract naturals.  Each SQL update of
database.py becomes a function on the row. -/

/- Document states (document_worker/consts.py). -/
namespace DocumentState

def QUEUED : String := "QueuedDocumentState"
def PROCESSING : String := "InProgressDocumentState"
def FAILED : String := "ErrorDocumentState"
def FINISHED : String := "DoneDocumentState"

end DocumentState

/-- The columns of the document row that the worker reads or writes. -/
structure DocRow where
  state : String
  retrieved_at : Option Nat
  finished_at : Option Nat
  file_name : Option String
  content_type : Option String
  file_size : Option Nat
  worker_log : Option String
deriving DecidableEq, Repr

/-- `UPDATE_DOCUMENT_RETRIEVED` (database.py, line 103, executed by
`update_document_retrieved`): set `retrieved_at` and state PROCESSING. -/
def update_document_retrieved (retrieved_at : Nat) (row : DocRow) : DocRow :=
  { row with retrieved_at := some retrieved_at, state := DocumentState.PROCESSING }

/-- `UPDATE_DOCUMENT_STATE` (database.py, line 102, executed by
`update_document_state`): set state and `worker_log`. -/
def update_document_state (state worker_log : String) (row : DocRow) : DocRow :=
  { row with state := state, worker_log := some worker_log }

/-- `UPDATE_DOCUMENT_FINISHED` (database.py, lines 104 to 105, executed by
`update_document_finished`): set `finished_at`, state FINISHED, `file_name`,
`content_type` and `worker_log` — and nothing else; in particular the
statement has no `file_size` column. -/
def update_document_finished (finished_at : Nat) (file_name content_type worker_log : String)
    (row : DocRow) : DocRow :=
  { row with
      finished_at := some finished_at
      state := DocumentState.FINISHED
      file_name := some file_name
      content_type := some content_type
      worker_log := some worker_log }

/-- Parameter names of `Database.update_document_finished` (database.py,
lines 309 to 312), `self` aside. -/
def updateDocumentFinishedParams : List String :=
  ["finished_at", "file_name", "content_type", "worker_log", "document_uuid"]

/-- Keyword-argument names of the `update_document_finished` call inside
`Job.finalize` (worker.py, lines 194 to 204). -/
def finalizeCallKwargs : List String :=
  ["finished_at", "file_name", "content_type", "file_size", "worker_log", "document_uuid"]

/-- Column names that the SET clause of `UPDATE_DOCUMENT_FINISHED` writes. -/
def updateDocumentFinishedSetColumns : List String :=
  ["finished_at", "state", "file_name", "content_type", "worker_log"]

/-- Python call semantics: a call with keyword arguments is accepted exactly
when every keyword names a parameter of the callee (otherwise the call
raises `TypeError` before the body runs). -/
def pythonKwargsAccepted (params kwargs : List String) : Bool :=
  kwargs.all (fun k => params.contains k)

/-- Structured job exception (document_worker/exceptions.py is not under
src/; modelled from the spec: "a structured JobException carrying both a log
message ... and a db message"; only the message matters here). -/
structure JobException where
  message : String
deriving DecidableEq, Repr

/-- Modelled from the spec: the concise user-facing db message of a
`JobException` is derived from its message. -/
def JobException.dbMessage (e : JobException) : String :=
  e.message

/-- The database state a job touches: the document row under the job's
`document_uuid` (none when the queue points at a missing row) and the ids of
the queue rows. -/
structure WorkerDB where
  doc : Option DocRow
  queue : List Nat
deriving DecidableEq, Repr

/-- Message raised by `Job.get_document` when the fetched row is already
FINISHED (worker.py, lines 98 to 102). -/
def alreadyFinishedMessage : String :=
  "Document is already marked as finished"

/-- Message raised by `Job.get_document` when no row was fetched (worker.py,
lines 88 to 92). -/
def notFoundMessage : String :=
  "Document record not found in database"

/-- `Job.get_document` (worker.py, lines 79 to 106): fetch the row; raise if
it is absent; raise if its state is already FINISHED; only then write the
retrieved-at/PROCESSING update. -/
def get_document (now : Nat) (db : WorkerDB) : Except JobException WorkerDB :=
  match db.doc with
  | none => .error ⟨notFoundMessage⟩
  | some row =>
    if row.state = DocumentState.FINISHED then
      .error ⟨alreadyFinishedMessage⟩
    else
      .ok { db with doc := some (update_document_retrieved now row) }

/-- `Job.try_set_job_state` via `Database.update_document_state`: the SQL
update targets the row by uuid unconditionally; it changes nothing when the
row does not exist. -/
def try_set_job_state (state message : String) (db : WorkerDB) : WorkerDB :=
  match db.doc with
  | none => db
  | some row => { db with doc := some (update_document_state state message row) }

/-- `Job.run` (worker.py, lines 234 to 253) around `Job._run` (lines 221 to
232): `get_document` first, then the rest of the pipeline (template
preparation, rendering, storing, finalize — abstracted into `rest`); any
`JobException` escaping `_run` makes the handler write state FAILED with the
exception's db message. -/
def jobRun (now : Nat) (rest : WorkerDB → Except JobException WorkerDB)
    (db : WorkerDB) : WorkerDB :=
  match get_document now db >>= rest with
  | .ok db' => db'
  | .error e => try_set_job_state DocumentState.FAILED e.dbMessage db

/-- `DocumentWorker._work` (worker.py, lines 342 to 366): run the job, then
delete its queue row; `Job.run` never lets an exception escape, so the
delete always happens. -/
def workJob (now : Nat) (rest : WorkerDB → Except JobException WorkerDB)
    (db : WorkerDB) (jobId : Nat) : WorkerDB :=
  let db' := jobRun now rest db
  { db' with queue := db'.queue.erase jobId }

/-! ## Template assets (document_worker/templates/templates.py)

The GridFS store is a partial map from the stored filename (the asset uuid)
to the byte content; template asset metadata carries uuid, file name and
content type.  Python `AttributeError` on `None.read()` is a distinct
error from `TemplateException`. -/

structure AssetMeta where
  uuid : String
  fileName : String
  contentType : String
deriving DecidableEq, Repr

/-- A resolved asset (`Asset` in templates/templates.py); bytes are
abstract. -/
structure TAsset where
  asset_uuid : String
  filename : String
  content_type : String
  data : List Nat
deriving DecidableEq, Repr

inductive TemplateError where
  | templateException (message : String) : TemplateError
  | attributeError : TemplateError
deriving DecidableEq, Repr

/-- `Template.fetch_asset` (templates/templates.py, lines 76 to 97): cached
asset if present; otherwise scan the metadata (last match wins, as the loop
keeps overwriting `found_asset`); a file name unknown to the template or an
asset whose bytes are missing from GridFS is logged and yields `None` —
the method itself never raises. -/
def fetch_asset (cache : List (String × TAsset)) (assets : List AssetMeta)
    (fs : String → Option (List Nat)) (filename : String) :
    Except TemplateError (Option TAsset) :=
  match cache.lookup filename with
  | some a => .ok (some a)
  | none =>
    match (assets.filter (fun a => a.fileName == filename)).getLast? with
    | none => .ok none
    | some meta =>
      match fs meta.uuid with
      | none => .ok none
      | some bytes => .ok (some ⟨meta.uuid, meta.fileName, meta.contentType, bytes⟩)

/-- `Template.download_template_assets` (templates/templates.py, lines 112
to 119): for each asset, `find_one` then `file.read()` with no `None`
check — a missing asset makes `file.read()` raise `AttributeError`, which
aborts template preparation.  On success the list of stored files is
returned. -/
def download_template_assets (assets : List AssetMeta)
    (fs : String → Option (List Nat)) :
    Except TemplateError (List (String × List Nat)) :=
  match assets with
  | [] => .ok []
  | a :: rest =>
    match fs a.uuid with
    | none => .error .attributeError
    | some bytes =>
      match download_template_assets rest fs with
      | .ok stored => .ok ((a.fileName, bytes) :: stored)
      | .error e => .error e

/-! ## Auxiliary definitions used by the statements and proofs -/

/-- Whether a Python call completed without raising. -/
def isOkE {ε α : Type} : Except ε α → Bool
  | .ok _ => true
  | .error _ => false

/-- The keys of the `known_formats` dict consulted by `FileFormats.get`. -/
def knownFormatKeys : List String :=
  ["html", "pdf", "docx", "markdown", "odt", "rst", "latex", "json", "epub",
   "docbook4", "docbook5", "pptx", "rtf", "asciidoc", "rdf", "rdf/xml",
   "turtle", "ttl", "n3", "ntriples", "n-triples", "trig", "json-ld", "jsonld"]

/-- Canonical names of the pandoc input formats the claim enumerates:
DOCX, EPUB, HTML, LaTeX, Markdown, ODT, RST. -/
def pandocInputNames : List String :=
  ["docx", "epub", "html", "latex", "markdown", "odt", "rst"]

/-- Canonical names of the pandoc output formats: the input set plus
AsciiDoc, DocBook4, DocBook5, RTF. -/
def pandocOutputNames : List String :=
  pandocInputNames ++ ["asciidoc", "docbook4", "docbook5", "rtf"]

/-- True when the list does not begin with a decimal digit, so a maximal
digit run ending right before it is read back unchanged. -/
def firstNonDigit : List Char → Bool
  | [] => true
  | c :: _ => ! isDigitChar c

/-- Characters that can begin the printed form of a JSON value. -/
def isValueHead (c : Char) : Bool :=
  c = 'n' || c = 't' || c = 'f' || c = '\"' || c = '-' || c = '[' || c = '{' ||
    isDigitChar c

/-- Induction principle for `Json` that hands the inductive hypothesis to
every element of an array and every member value of an object. -/
def jsonInd (motive : Json → Prop)
    (hnull : motive .null)
    (hbool : ∀ b, motive (.bool b))
    (hint : ∀ n, motive (.int n))
    (hstr : ∀ s, motive (.str s))
    (harr : ∀ xs, (∀ x ∈ xs, motive x) → motive (.arr xs))
    (hobj : ∀ kvs, (∀ p ∈ kvs, motive p.2) → motive (.obj kvs)) :
    ∀ v, motive v
  | .null => hnull
  | .bool b => hbool b
  | .int n => hint n
  | .str s => hstr s
  | .arr xs =>
    harr xs (fun x hx =>
      have : sizeOf x < 1 + sizeOf xs := by
        have := List.sizeOf_lt_of_mem hx
        omega
      jsonInd motive hnull hbool hint hstr harr hobj x)
  | .obj kvs =>
    hobj kvs (fun p hp =>
      have : sizeOf p.2 < 1 + sizeOf kvs := by
        have h1 := List.sizeOf_lt_of_mem hp
        have h2 : sizeOf p.2 < sizeOf p := by
          cases p with
          | mk a b => simp only [Prod.mk.sizeOf_spec]; omega
        omega
      jsonInd motive hnull hbool hint hstr harr hobj p.2)
termination_by v => sizeOf v

/-! ## Theorems -/

/-- Claim C3: for every step and every input, invoking a step in the wrong
role raises a `FormatStepException` instead of returning a document:
`execute_follow` on the producer steps (json, jinja) always raises, and
`execute_first` on the transformer steps (pandoc, wkhtmltopdf,
rdflib-convert) always raises. -/
theorem claim_C3_step_role_invariants :
    (∀ d : DocumentFile, jsonStepExecuteFollow d =
      .error (.formatStep "Step \"json\" cannot process other files")) ∧
    (∀ d : DocumentFile, jinjaStepExecuteFollow d =
      .error (.formatStep "Step \"jinja\" cannot process other files")) ∧
    (∀ ctx : Json, wkhtmltopdfExecuteFirst ctx =
      .error (.formatStep "Step \"wkhtmltopdf\" cannot be first")) ∧
    (∀ (s : PandocStep) (ctx : Json), pandocExecuteFirst s ctx =
      .error (.formatStep "Step \"pandoc\" cannot be first")) ∧
    (∀ (s : RdfLibConvertStep) (ctx : Json), rdflibExecuteFirst s ctx =
      .error (.formatStep "Step \"rdflib-convert\" cannot be first")) :=
  ⟨fun _ => rfl, fun _ => rfl, fun _ => rfl, fun _ _ => rfl, fun _ _ => rfl⟩

/-- Claim C7: the claim says `of_alphabet` is the positional bijective
base-26 labeling with `of_alphabet 26 = "aa"`, `of_alphabet 27 = "ab"`,
`of_alphabet 701 = "zz"`, `of_alphabet 702 = "aaa"`.  The code diverges at
every multi-letter value: the loop in templates/filters.py emits standard
base-26 digits least significant first and never emits `"aa"` at all, giving
`"ab"`, `"bb"`, `"zab"`, `"abb"` at those inputs; the legacy variant in
filters.py is off by one at 0.  The bijective labeling the spec prescribes
(`of_alphabet_bijective`) does take the claimed values. -/
theorem claim_C7_of_alphabet_divergence :
    of_alphabet 0 = "a" ∧ of_alphabet 25 = "z" ∧
    of_alphabet 26 = "ab" ∧ of_alphabet 26 ≠ "aa" ∧
    of_alphabet 27 = "bb" ∧ of_alphabet 701 = "zab" ∧ of_alphabet 702 = "abb" ∧
    of_alphabet_bijective 0 = "a" ∧ of_alphabet_bijective 25 = "z" ∧
    of_alphabet_bijective 26 = "aa" ∧ of_alphabet_bijective 27 = "ab" ∧
    of_alphabet_bijective 701 = "zz" ∧ of_alphabet_bijective 702 = "aaa" ∧
    of_alphabet_legacy 0 ≠ "a" ∧ of_alphabet_legacy 1 = "a" := by
  refine ⟨?_, ?_, ?_, ?_, ?_, ?_, ?_, ?_, ?_, ?_, ?_, ?_, ?_, ?_, ?_⟩ <;>
    simp [of_alphabet, ofAlphabetAux, of_alphabet_bijective, bijectiveAlphaChars,
      of_alphabet_legacy]

/-- Claim C9 counterexample: the claim says the format-name lookup accepts
both alias spellings for every RDF format, in particular that `nt` (the
externally visible tag of the N-Triples format) resolves; but `nt` is not a
key of `known_formats`, so the lookup returns `None`. -/
theorem claim_C9_counterexample : FileFormats.get "nt" = none := by decide

/-- Claim C9 amended: the lookup accepts both alias spellings and maps them
to the same format for `rdf`/`rdf/xml`, `ttl`/`turtle`, `n3`, `trig` and
`jsonld`/`json-ld`, and accepts the rdflib tags `ntriples`/`n-triples` of
N-Triples; but the N-Triples external tag `nt` and the RDF/XML rdflib tag
`xml` are not accepted (both return `None`). -/
theorem claim_C9_rdf_aliases :
    FileFormats.get "rdf" = some FileFormats.RDF_XML ∧
    FileFormats.get "rdf/xml" = some FileFormats.RDF_XML ∧
    FileFormats.get "n3" = some FileFormats.N3 ∧
    FileFormats.get "ntriples" = some FileFormats.NTRIPLES ∧
    FileFormats.get "n-triples" = some FileFormats.NTRIPLES ∧
    FileFormats.get "turtle" = some FileFormats.TURTLE ∧
    FileFormats.get "ttl" = some FileFormats.TURTLE ∧
    FileFormats.get "trig" = some FileFormats.TRIG ∧
    FileFormats.get "jsonld" = some FileFormats.JSONLD ∧
    FileFormats.get "json-ld" = some FileFormats.JSONLD ∧
    rdflibConvertTag FileFormats.NTRIPLES = some "ntriples" ∧
    rdflibConvertTag FileFormats.RDF_XML = some "xml" ∧
    FileFormats.get "nt" = none ∧
    FileFormats.get "xml" = none := by decide

/-- Claim C2: the claim says `update_document_finished` accepts a
`file_size` argument and writes it to the document row.  In the source,
`Job.finalize` does pass `file_size=` as a keyword, but
`Database.update_document_finished` has no such parameter — the call raises
`TypeError` — and the `UPDATE_DOCUMENT_FINISHED` statement has no
`file_size` column, so the row's `file_size` is never written. -/
theorem claim_C2_finalize_file_size_bug :
    pythonKwargsAccepted updateDocumentFinishedParams finalizeCallKwargs = false ∧
    "file_size" ∈ finalizeCallKwargs ∧
    "file_size" ∉ updateDocumentFinishedParams ∧
    "file_size" ∉ updateDocumentFinishedSetColumns ∧
    (∀ ts fn ct wl row,
      (update_document_finished ts fn ct wl row).file_size = row.file_size) :=
  ⟨by decide, by decide, by decide, by decide, fun _ _ _ _ _ => rfl⟩

/-- Claim C6 counterexample: the claim says a template asset whose byte
content is absent from the backing store never makes template preparation
fail; but `download_template_assets` calls `file.read()` on the `None` that
`find_one` returned, raising `AttributeError`, so preparation fails on this
one-asset template with an empty store. -/
theorem claim_C6_counterexample :
    download_template_assets [⟨"u1", "logo.png", "image/png"⟩] (fun _ => none) =
      .error .attributeError := rfl

/-- Claim C6 amended: `fetch_asset` never raises — a file name unknown to
the template or an asset missing from the store yields `None` (after
logging) — but `download_template_assets`, which runs during template
construction, succeeds precisely when every listed asset's content is
present in the store; one missing asset makes it raise and template
preparation fail. -/
theorem claim_C6_missing_asset_amended :
    (∀ cache assets fs filename,
      ∃ r, fetch_asset cache assets fs filename = .ok r) ∧
    (∀ assets fs, (∃ s, download_template_assets assets fs = .ok s) ↔
      ∀ a ∈ assets, (fs a.uuid).isSome = true) := by
  constructor
  · intro cache assets fs filename
    unfold fetch_asset
    rcases hc : cache.lookup filename with _ | a
    · rcases hm : (assets.filter (fun a => a.fileName == filename)).getLast? with _ | meta
      · exact ⟨none, by simp [hc, hm]⟩
      · rcases h : fs meta.uuid with _ | bytes
        · exact ⟨none, by simp [hc, hm, h]⟩
        · exact ⟨some ⟨meta.uuid, meta.fileName, meta.contentType, bytes⟩,
            by simp [hc, hm, h]⟩
    · exact ⟨some a, by simp [hc]⟩
  · intro assets fs
    induction assets with
    | nil => simp [download_template_assets]
    | cons a rest ih =>
      constructor
      · rintro ⟨s, hs⟩
        unfold download_template_assets at hs
        rcases hfs : fs a.uuid with _ | bytes
        · rw [hfs] at hs; exact absurd hs (by simp)
        · rw [hfs] at hs
          intro b hb
          rcases List.mem_cons.mp hb with rfl | hb'
          · simp [hfs]
          · rcases hrest : download_template_assets rest fs with e | s'
            · rw [hrest] at hs; exact absurd hs (by simp)
            · exact ih.mp ⟨s', hrest⟩ b hb'
      · intro hall
        rcases hfs : fs a.uuid with _ | bytes
        · exact absurd (hall a (by simp)) (by simp [hfs])
        · obtain ⟨s', hs'⟩ := ih.mpr (fun b hb => hall b (by simp [hb]))
          exact ⟨(a.fileName, bytes) :: s', by
            unfold download_template_assets
            rw [hfs, hs']⟩

/-- Claim C6 amended, instantiated: a store holding the single listed asset
lets `download_template_assets` succeed, and `fetch_asset` of an unknown
file name completes without raising. -/
theorem claim_C6_missing_asset_amended_witness :
    (∃ r, fetch_asset [] [⟨"u1", "logo.png", "image/png"⟩] (fun _ => none) "other.png" =
      .ok r) ∧
    (∃ s, download_template_assets [⟨"u1", "logo.png", "image/png"⟩]
      (fun _ => some [0, 1]) = .ok s) :=
  ⟨claim_C6_missing_asset_amended.1 [] [⟨"u1", "logo.png", "image/png"⟩] (fun _ => none)
      "other.png",
   (claim_C6_missing_asset_amended.2 [⟨"u1", "logo.png", "image/png"⟩]
      (fun _ => some [0, 1])).mpr (by decide)⟩

/-- Claim C1 counterexample: the claim says that for a document row already
FINISHED the worker performs no further writes, so the row stays FINISHED.
On this concrete state (row FINISHED, one queue row) the run ends with the
row rewritten to FAILED with the already-finished message as its worker log
(the queue row is indeed deleted). -/
theorem claim_C1_counterexample :
    (workJob 0 (fun d => .ok d)
        ⟨some ⟨DocumentState.FINISHED, none, none, none, none, none, none⟩, [7]⟩ 7).doc =
      some ⟨DocumentState.FAILED, none, none, none, none, none,
        some alreadyFinishedMessage⟩ ∧
    DocumentState.FAILED ≠ DocumentState.FINISHED ∧
    (workJob 0 (fun d => .ok d)
        ⟨some ⟨DocumentState.FINISHED, none, none, none, none, none, none⟩, [7]⟩ 7).queue =
      [] := by
  refine ⟨rfl, by decide, rfl⟩

/-- Claim C1 amended: when the fetched document row is already FINISHED,
`get_document` raises before the retrieved/PROCESSING update, so no
rendering, storing or finalizing happens (the outcome does not depend on the
rest of the pipeline) and the queue row is still deleted; but `Job.run`'s
exception handler then writes state FAILED and the already-finished message
into the row's worker log, so the row does not stay FINISHED. -/
theorem claim_C1_already_finished_amended
    (now : Nat) (rest : WorkerDB → Except JobException WorkerDB)
    (db : WorkerDB) (row : DocRow) (jobId : Nat)
    (hdoc : db.doc = some row) (hfin : row.state = DocumentState.FINISHED) :
    (workJob now rest db jobId).doc =
      some (update_document_state DocumentState.FAILED alreadyFinishedMessage row) ∧
    update_document_state DocumentState.FAILED alreadyFinishedMessage row =
      { row with state := DocumentState.FAILED, worker_log := some alreadyFinishedMessage } ∧
    (workJob now rest db jobId).queue = db.queue.erase jobId := by
  have hrun : jobRun now rest db =
      { db with doc := some (update_document_state DocumentState.FAILED
          alreadyFinishedMessage row) } := by
    unfold jobRun get_document
    rw [hdoc]
    simp only [hfin, if_pos rfl]
    show (match (Except.error ⟨alreadyFinishedMessage⟩ : Except JobException WorkerDB) >>= rest with
      | .ok db' => db'
      | .error e => try_set_job_state DocumentState.FAILED e.dbMessage db) = _
    show try_set_job_state DocumentState.FAILED
      (JobException.dbMessage ⟨alreadyFinishedMessage⟩) db = _
    unfold try_set_job_state
    rw [hdoc]
    rfl
  unfold workJob
  rw [hrun]
  exact ⟨rfl, rfl, rfl⟩

/-- Claim C1 amended, instantiated at a concrete FINISHED row. -/
theorem claim_C1_already_finished_amended_witness :
    (workJob 0 (fun d => .ok d)
        ⟨some ⟨DocumentState.FINISHED, none, none, none, none, none, none⟩, [5]⟩ 5).doc =
      some (update_document_state DocumentState.FAILED alreadyFinishedMessage
        ⟨DocumentState.FINISHED, none, none, none, none, none, none⟩) ∧
    update_document_state DocumentState.FAILED alreadyFinishedMessage
        ⟨DocumentState.FINISHED, none, none, none, none, none, none⟩ =
      { (⟨DocumentState.FINISHED, none, none, none, none, none, none⟩ : DocRow) with
          state := DocumentState.FAILED, worker_log := some alreadyFinishedMessage } ∧
    (workJob 0 (fun d => .ok d)
        ⟨some ⟨DocumentState.FINISHED, none, none, none, none, none, none⟩, [5]⟩ 5).queue =
      ([5] : List Nat).erase 5 :=
  claim_C1_already_finished_amended 0 (fun d => .ok d)
    ⟨some ⟨DocumentState.FINISHED, none, none, none, none, none, none⟩, [5]⟩
    ⟨DocumentState.FINISHED, none, none, none, none, none, none⟩ 5 rfl rfl

/-- Claim C10: `FileFormat` equality is decided by the name alone — two
formats are equal iff their names are, and there are formats equal under it
that disagree on content type and extension; consequently every seam check
of the transformer steps compares only format names, and the jinja step's
output format carries the `extension` option as its name. -/
theorem claim_C10_fileformat_name_equality :
    (∀ a b : FileFormat, ffEq a b = true ↔ a.name = b.name) ∧
    (∃ a b : FileFormat, ffEq a b = true ∧ a.content_type ≠ b.content_type ∧
      a.file_extension ≠ b.file_extension ∧ a ≠ b) ∧
    (∀ root ct e, (jinjaInit ⟨root, ct, some e⟩).output_format.name = e) ∧
    (∀ conv s d, isOkE (pandocExecuteFollow conv s d) =
      (d.file_format.name == s.input_format.name)) ∧
    (∀ conv d, isOkE (wkhtmltopdfExecuteFollow conv d) =
      (d.file_format.name == "html")) ∧
    (∀ conv s d, isOkE (rdflibExecuteFollow conv s d) =
      (d.file_format.name == s.input_format.name)) := by
  refine ⟨?_, ?_, ?_, ?_, ?_, ?_⟩
  · intro a b
    simp [ffEq]
  · exact ⟨⟨"x", "ct1", "e1"⟩, ⟨"x", "ct2", "e2"⟩, by decide, by decide, by decide,
      by decide⟩
  · intro root ct e
    rfl
  · intro conv s d
    unfold pandocExecuteFollow
    simp only [ffEq]
    split
    · next h => simp only [Bool.not_eq_true] at h; simp [isOkE, h]
    · next h => simp only [not_not] at h; simp [isOkE, h]
  · intro conv d
    unfold wkhtmltopdfExecuteFollow
    simp only [ffEq]
    split
    · next h =>
        simp only [FileFormats.HTML, Bool.not_eq_true] at h
        simp [isOkE, h]
    · next h =>
        simp only [FileFormats.HTML, not_not] at h
        simp [isOkE, h]
  · intro conv s d
    unfold rdflibExecuteFollow
    simp only [ffEq]
    split
    · next h => simp only [Bool.not_eq_true] at h; simp [isOkE, h]
    · next h => simp only [not_not] at h; simp [isOkE, h]

/-- Helper: a name outside the `known_formats` keys makes `FileFormats.get`
return `None`. -/
theorem get_none_of_not_key (name : String) (h : name ∉ knownFormatKeys) :
    FileFormats.get name = none := by
  simp only [knownFormatKeys, List.mem_cons, List.not_mem_nil, or_false] at h
  push_neg at h
  obtain ⟨h1, h2, h3, h4, h5, h6, h7, h8, h9, h10, h11, h12, h13, h14, h15,
    h16, h17, h18, h19, h20, h21, h22, h23, h24⟩ := h
  unfold FileFormats.get
  rw [if_neg (by simp [h1]), if_neg (by simp [h2]), if_neg (by simp [h3]),
    if_neg (by simp [h4]), if_neg (by simp [h5]), if_neg (by simp [h6]),
    if_neg (by simp [h7]), if_neg (by simp [h8]), if_neg (by simp [h9]),
    if_neg (by simp [h10]), if_neg (by simp [h11]), if_neg (by simp [h12]),
    if_neg (by simp [h13]), if_neg (by simp [h14]), if_neg (by simp [h15]),
    if_neg (by simp [h16]), if_neg (by simp [h17]), if_neg (by simp [h18]),
    if_neg (by simp [h19]), if_neg (by simp [h20]), if_neg (by simp [h21]),
    if_neg (by simp [h22]), if_neg (by simp [h23]), if_neg (by simp [h24])]

/-- Helper for claim C5: a `from` option passes the lookup and the
input-set check exactly when it is one of the seven canonical input format
names. -/
theorem pandoc_from_accepted (name : String) :
    (match FileFormats.get name with
      | some f => ffMem f pandocInputFormats
      | none => false) = true ↔ name ∈ pandocInputNames := by
  by_cases hmem : name ∈ knownFormatKeys
  · simp only [knownFormatKeys, List.mem_cons, List.not_mem_nil, or_false] at hmem
    rcases hmem with rfl | rfl | rfl | rfl | rfl | rfl | rfl | rfl | rfl | rfl |
      rfl | rfl | rfl | rfl | rfl | rfl | rfl | rfl | rfl | rfl | rfl | rfl |
      rfl | rfl <;> decide
  · rw [get_none_of_not_key name hmem]
    have hsub : ∀ x, x ∈ pandocInputNames → x ∈ knownFormatKeys := by decide
    have h' : name ∉ pandocInputNames := fun hin => hmem (hsub name hin)
    simp [h']

/-- Helper for claim C5: a `to` option passes the lookup and the output-set
check exactly when it is one of the eleven canonical output format names. -/
theorem pandoc_to_accepted (name : String) :
    (match FileFormats.get name with
      | some f => ffMem f pandocOutputFormats
      | none => false) = true ↔ name ∈ pandocOutputNames := by
  by_cases hmem : name ∈ knownFormatKeys
  · simp only [knownFormatKeys, List.mem_cons, List.not_mem_nil, or_false] at hmem
    rcases hmem with rfl | rfl | rfl | rfl | rfl | rfl | rfl | rfl | rfl | rfl |
      rfl | rfl | rfl | rfl | rfl | rfl | rfl | rfl | rfl | rfl | rfl | rfl |
      rfl | rfl <;> decide
  · rw [get_none_of_not_key name hmem]
    have hsub : ∀ x, x ∈ pandocOutputNames → x ∈ knownFormatKeys := by decide
    have h' : name ∉ pandocOutputNames := fun hin => hmem (hsub name hin)
    simp [h']

/-- Helper for claim C5: success of the pandoc step constructor reduces to
the two membership checks. -/
theorem pandocInit_isOk (f t : String) :
    isOkE (pandocInit f t) =
      ((match FileFormats.get f with
        | some F => ffMem F pandocInputFormats
        | none => false) &&
       (match FileFormats.get t with
        | some F => ffMem F pandocOutputFormats
        | none => false)) := by
  unfold pandocInit
  rcases hf : FileFormats.get f with _ | F
  · rfl
  · rcases h : ffMem F pandocInputFormats with _ | _
    · simp [h, isOkE]
    · rcases ht : FileFormats.get t with _ | G
      · simp [h, ht, isOkE]
      · rcases h2 : ffMem G pandocOutputFormats with _ | _ <;> simp [h, ht, h2, isOkE]

/-- Claim C5: construction of the pandoc step succeeds exactly when the
`from` option names one of DOCX, EPUB, HTML, LaTeX, Markdown, ODT, RST and
the `to` option names one of those plus AsciiDoc, DocBook4, DocBook5, RTF;
every other `from` or `to` makes construction fail. -/
theorem claim_C5_pandoc_format_sets (fromName toName : String) :
    isOkE (pandocInit fromName toName) = true ↔
      fromName ∈ pandocInputNames ∧ toName ∈ pandocOutputNames := by
  rw [pandocInit_isOk, Bool.and_eq_true, pandoc_from_accepted, pandoc_to_accepted]

theorem joinN_zero (r : List Char) : joinN 0 r = [] := rfl

theorem joinN_succ (k : Nat) (r : List Char) : joinN (k + 1) r = r ++ joinN k r := by
  simp [joinN, List.replicate_succ]

/-- The inner while loop of `roman` appends the letter group once per time
the value fits and leaves the remainder. -/
theorem romanInner_eq (i : Nat) (r : List Char) (hi : 0 < i) :
    ∀ n acc, romanInner i r n acc = (acc ++ joinN (n / i) r, n % i) := by
  intro n
  induction n using Nat.strong_induction_on with
  | _ n ih =>
    intro acc
    rw [romanInner]
    by_cases h : i ≤ n
    · rw [dif_pos ⟨hi, h⟩]
      rw [ih (n - i) (by omega) (acc ++ r)]
      have hdiv : n / i = (n - i) / i + 1 := by
        rw [Nat.div_eq_sub_div hi h]
      have hmod : n % i = (n - i) % i := Nat.mod_eq_sub_mod h
      rw [hdiv, hmod, joinN_succ]
      simp [List.append_assoc]
    · rw [dif_neg (by omega)]
      rw [Nat.div_eq_of_lt (by omega), Nat.mod_eq_of_lt (by omega)]
      simp [joinN_zero]

theorem romanFor_append (l1 l2 : List (Nat × List Char)) (n : Nat) (acc : List Char) :
    romanFor (l1 ++ l2) n acc =
      romanFor l2 (romanFor l1 n acc).2 (romanFor l1 n acc).1 := by
  induction l1 generalizing n acc with
  | nil => rfl
  | cons p rest ih =>
    cases p with
    | mk i r => simp [romanFor, ih]

/-- Units segment of the table: the greedy pass over the last four entries
renders the units digit. -/
theorem roman_units (m : Nat) (acc : List Char) (hm : m < 10) :
    romanFor [(9, ['I', 'X']), (5, ['V']), (4, ['I', 'V']), (1, ['I'])] m acc =
      (acc ++ romanUnitsTable m, 0) := by
  interval_cases m <;>
    simp [romanFor, romanInner_eq, joinN, List.replicate, romanUnitsTable]

/-- Tens segment of the table, on a value split into tens digit and rest. -/
theorem roman_tens_dr (d r : Nat) (acc : List Char) (hd : d < 10) (hr : r < 10) :
    romanFor [(90, ['X', 'C']), (50, ['L']), (40, ['X', 'L']), (10, ['X'])]
      (10 * d + r) acc = (acc ++ romanTensTable d, r) := by
  interval_cases d
  · simp [romanFor, romanInner_eq, joinN, List.replicate]
    refine ⟨?_, by omega⟩
    rw [show r / 90 = 0 from by omega, show r % 90 / 50 = 0 from by omega,
      show r % 90 % 50 / 40 = 0 from by omega,
      show r % 90 % 50 % 40 / 10 = 0 from by omega]
    decide
  · simp [romanFor, romanInner_eq, joinN, List.replicate]
    refine ⟨?_, by omega⟩
    rw [show (10 + r) / 90 = 0 from by omega, show (10 + r) % 90 / 50 = 0 from by omega,
      show (10 + r) % 90 % 50 / 40 = 0 from by omega,
      show (10 + r) % 90 % 50 % 40 / 10 = 1 from by omega]
    decide
  · simp [romanFor, romanInner_eq, joinN, List.replicate]
    refine ⟨?_, by omega⟩
    rw [show (20 + r) / 90 = 0 from by omega, show (20 + r) % 90 / 50 = 0 from by omega,
      show (20 + r) % 90 % 50 / 40 = 0 from by omega,
      show (20 + r) % 90 % 50 % 40 / 10 = 2 from by omega]
    decide
  · simp [romanFor, romanInner_eq, joinN, List.replicate]
    refine ⟨?_, by omega⟩
    rw [show (30 + r) / 90 = 0 from by omega, show (30 + r) % 90 / 50 = 0 from by omega,
      show (30 + r) % 90 % 50 / 40 = 0 from by omega,
      show (30 + r) % 90 % 50 % 40 / 10 = 3 from by omega]
    decide
  · simp [romanFor, romanInner_eq, joinN, List.replicate]
    refine ⟨?_, by omega⟩
    rw [show (40 + r) / 90 = 0 from by omega, show (40 + r) % 90 / 50 = 0 from by omega,
      show (40 + r) % 90 % 50 / 40 = 1 from by omega,
      show (40 + r) % 90 % 50 % 40 / 10 = 0 from by omega]
    decide
  · simp [romanFor, romanInner_eq, joinN, List.replicate]
    refine ⟨?_, by omega⟩
    rw [show (50 + r) / 90 = 0 from by omega, show (50 + r) % 90 / 50 = 1 from by omega,
      show (50 + r) % 90 % 50 / 40 = 0 from by omega,
      show (50 + r) % 90 % 50 % 40 / 10 = 0 from by omega]
    decide
  · simp [romanFor, romanInner_eq, joinN, List.replicate]
    refine ⟨?_, by omega⟩
    rw [show (60 + r) / 90 = 0 from by omega, show (60 + r) % 90 / 50 = 1 from by omega,
      show (60 + r) % 90 % 50 / 40 = 0 from by omega,
      show (60 + r) % 90 % 50 % 40 / 10 = 1 from by omega]
    decide
  · simp [romanFor, romanInner_eq, joinN, List.replicate]
    refine ⟨?_, by omega⟩
    rw [show (70 + r) / 90 = 0 from by omega, show (70 + r) % 90 / 50 = 1 from by omega,
      show (70 + r) % 90 % 50 / 40 = 0 from by omega,
      show (70 + r) % 90 % 50 % 40 / 10 = 2 from by omega]
    decide
  · simp [romanFor, romanInner_eq, joinN, List.replicate]
    refine ⟨?_, by omega⟩
    rw [show (80 + r) / 90 = 0 from by omega, show (80 + r) % 90 / 50 = 1 from by omega,
      show (80 + r) % 90 % 50 / 40 = 0 from by omega,
      show (80 + r) % 90 % 50 % 40 / 10 = 3 from by omega]
    decide
  · simp [romanFor, romanInner_eq, joinN, List.replicate]
    refine ⟨?_, by omega⟩
    rw [show r / 90 = 0 from by omega, show r % 90 / 50 = 0 from by omega,
      show r % 90 % 50 / 40 = 0 from by omega,
      show r % 90 % 50 % 40 / 10 = 0 from by omega]
    decide

theorem roman_tens (m : Nat) (acc : List Char) (hm : m < 100) :
    romanFor [(90, ['X', 'C']), (50, ['L']), (40, ['X', 'L']), (10, ['X'])] m acc =
      (acc ++ romanTensTable (m / 10), m % 10) := by
  have h := roman_tens_dr (m / 10) (m % 10) acc (by omega) (by omega)
  rwa [Nat.div_add_mod] at h

/-- Hundreds segment of the table, on a value split into hundreds digit and
rest. -/
theorem roman_hundreds_dr (d r : Nat) (acc : List Char) (hd : d < 10) (hr : r < 100) :
    romanFor [(900, ['C', 'M']), (500, ['D']), (400, ['C', 'D']), (100, ['C'])]
      (100 * d + r) acc = (acc ++ romanHundredsTable d, r) := by
  interval_cases d
  · simp [romanFor, romanInner_eq, joinN, List.replicate]
    refine ⟨?_, by omega⟩
    rw [show r / 900 = 0 from by omega, show r % 900 / 500 = 0 from by omega,
      show r % 900 % 500 / 400 = 0 from by omega,
      show r % 900 % 500 % 400 / 100 = 0 from by omega]
    decide
  · simp [romanFor, romanInner_eq, joinN, List.replicate]
    refine ⟨?_, by omega⟩
    rw [show (100 + r) / 900 = 0 from by omega,
      show (100 + r) % 900 / 500 = 0 from by omega,
      show (100 + r) % 900 % 500 / 400 = 0 from by omega,
      show (100 + r) % 900 % 500 % 400 / 100 = 1 from by omega]
    decide
  · simp [romanFor, romanInner_eq, joinN, List.replicate]
    refine ⟨?_, by omega⟩
    rw [show (200 + r) / 900 = 0 from by omega,
      show (200 + r) % 900 / 500 = 0 from by omega,
      show (200 + r) % 900 % 500 / 400 = 0 from by omega,
      show (200 + r) % 900 % 500 % 400 / 100 = 2 from by omega]
    decide
  · simp [romanFor, romanInner_eq, joinN, List.replicate]
    refine ⟨?_, by omega⟩
    rw [show (300 + r) / 900 = 0 from by omega,
      show (300 + r) % 900 / 500 = 0 from by omega,
      show (300 + r) % 900 % 500 / 400 = 0 from by omega,
      show (300 + r) % 900 % 500 % 400 / 100 = 3 from by omega]
    decide
  · simp [romanFor, romanInner_eq, joinN, List.replicate]
    refine ⟨?_, by omega⟩
    rw [show (400 + r) / 900 = 0 from by omega,
      show (400 + r) % 900 / 500 = 0 from by omega,
      show (400 + r) % 900 % 500 / 400 = 1 from by omega,
      show (400 + r) % 900 % 500 % 400 / 100 = 0 from by omega]
    decide
  · simp [romanFor, romanInner_eq, joinN, List.replicate]
    refine ⟨?_, by omega⟩
    rw [show (500 + r) / 900 = 0 from by omega,
      show (500 + r) % 900 / 500 = 1 from by omega,
      show (500 + r) % 900 % 500 / 400 = 0 from by omega,
      show (500 + r) % 900 % 500 % 400 / 100 = 0 from by omega]
    decide
  · simp [romanFor, romanInner_eq, joinN, List.replicate]
    refine ⟨?_, by omega⟩
    rw [show (600 + r) / 900 = 0 from by omega,
      show (600 + r) % 900 / 500 = 1 from by omega,
      show (600 + r) % 900 % 500 / 400 = 0 from by omega,
      show (600 + r) % 900 % 500 % 400 / 100 = 1 from by omega]
    decide
  · simp [romanFor, romanInner_eq, joinN, List.replicate]
    refine ⟨?_, by omega⟩
    rw [show (700 + r) / 900 = 0 from by omega,
      show (700 + r) % 900 / 500 = 1 from by omega,
      show (700 + r) % 900 % 500 / 400 = 0 from by omega,
      show (700 + r) % 900 % 500 % 400 / 100 = 2 from by omega]
    decide
  · simp [romanFor, romanInner_eq, joinN, List.replicate]
    refine ⟨?_, by omega⟩
    rw [show (800 + r) / 900 = 0 from by omega,
      show (800 + r) % 900 / 500 = 1 from by omega,
      show (800 + r) % 900 % 500 / 400 = 0 from by omega,
      show (800 + r) % 900 % 500 % 400 / 100 = 3 from by omega]
    decide
  · simp [romanFor, romanInner_eq, joinN, List.replicate]
    refine ⟨?_, by omega⟩
    rw [show r / 900 = 0 from by omega,
      show r % 900 / 500 = 0 from by omega,
      show r % 900 % 500 / 400 = 0 from by omega,
      show r % 900 % 500 % 400 / 100 = 0 from by omega]
    decide

theorem roman_hundreds (m : Nat) (acc : List Char) (hm : m < 1000) :
    romanFor [(900, ['C', 'M']), (500, ['D']), (400, ['C', 'D']), (100, ['C'])] m acc =
      (acc ++ romanHundredsTable (m / 100), m % 100) := by
  have h := roman_hundreds_dr (m / 100) (m % 100) acc (by omega) (by omega)
  rwa [Nat.div_add_mod] at h

/-- One full greedy pass over the value table produces the classical digit
rendering and drains the value to zero. -/
theorem romanFor_table (n : Nat) :
    romanFor romansTable n [] = (romanSpec n, 0) := by
  have e1 : romansTable = [(1000, ['M'])] ++
      ([(900, ['C', 'M']), (500, ['D']), (400, ['C', 'D']), (100, ['C'])] ++
       ([(90, ['X', 'C']), (50, ['L']), (40, ['X', 'L']), (10, ['X'])] ++
        [(9, ['I', 'X']), (5, ['V']), (4, ['I', 'V']), (1, ['I'])])) := rfl
  have s1 : romanFor [(1000, ['M'])] n [] = (joinN (n / 1000) ['M'], n % 1000) := by
    simp only [romanFor]
    rw [romanInner_eq 1000 ['M'] (by norm_num)]
    simp [romanFor]
  rw [e1, romanFor_append, s1]
  dsimp only
  rw [romanFor_append, roman_hundreds (n % 1000) (joinN (n / 1000) ['M']) (by omega)]
  dsimp only
  rw [show n % 1000 % 100 = n % 100 from by omega]
  rw [romanFor_append,
    roman_tens (n % 100) (joinN (n / 1000) ['M'] ++ romanHundredsTable (n % 1000 / 100))
      (by omega)]
  dsimp only
  rw [show n % 100 % 10 = n % 10 from by omega]
  rw [roman_units (n % 10) _ (by omega)]
  rw [show n % 1000 / 100 = n / 100 % 10 from by omega,
    show n % 100 / 10 = n / 10 % 10 from by omega]
  simp [romanSpec, List.append_assoc]

/-- Claim C8: `roman` renders the classical additive Roman numeral of every
positive argument (digit-table form `romanSpec`, modelled from the spec) and
the empty string for every non-positive argument; in particular
`roman 1 = I`, `roman 4 = IV`, `roman 1994 = MCMXCIV`, `roman 0` empty. -/
theorem claim_C8_roman :
    (∀ i : Int, i ≤ 0 → roman i = "") ∧
    (∀ n : Nat, 0 < n → roman (n : Int) = String.mk (romanSpec n)) ∧
    roman 1 = "I" ∧ roman 4 = "IV" ∧ roman 1994 = "MCMXCIV" ∧ roman 0 = "" := by
  have hneg : ∀ i : Int, i ≤ 0 → roman i = "" := by
    intro i hi
    unfold roman
    rw [if_neg (by omega)]
  have hpos : ∀ n : Nat, 0 < n → roman (n : Int) = String.mk (romanSpec n) := by
    intro n hn
    unfold roman
    rw [if_pos (by exact_mod_cast hn)]
    rw [Int.toNat_natCast, romanFor_table]
  refine ⟨hneg, hpos, ?_, ?_, ?_, hneg 0 le_rfl⟩
  · rw [show (1 : Int) = ((1 : Nat) : Int) from rfl, hpos 1 (by norm_num)]
    decide
  · rw [show (4 : Int) = ((4 : Nat) : Int) from rfl, hpos 4 (by norm_num)]
    decide
  · rw [show (1994 : Int) = ((1994 : Nat) : Int) from rfl, hpos 1994 (by norm_num)]
    decide

/-- Claim C8, instantiated at a negative and a positive argument. -/
theorem claim_C8_roman_witness :
    roman (-5) = "" ∧ roman ((12 : Nat) : Int) = String.mk (romanSpec 12) :=
  ⟨claim_C8_roman.1 (-5) (by norm_num), claim_C8_roman.2.1 12 (by norm_num)⟩

theorem natCharsAux_acc (n : Nat) :
    ∀ acc, natCharsAux n acc = natCharsAux n [] ++ acc := by
  induction n using Nat.strong_induction_on with
  | _ n ih =>
    intro acc
    by_cases h : n / 10 = 0
    · conv_lhs => rw [natCharsAux]
      conv_rhs => rw [natCharsAux]
      simp [h]
    · conv_lhs => rw [natCharsAux]
      conv_rhs => rw [natCharsAux]
      simp only [h, dif_neg, not_false_iff]
      rw [ih (n / 10) (Nat.div_lt_self (by omega) (by omega))
          (Char.ofNat (48 + n % 10) :: acc),
        ih (n / 10) (Nat.div_lt_self (by omega) (by omega)) [Char.ofNat (48 + n % 10)]]
      simp

theorem natChars_small (n : Nat) (h : n < 10) :
    natChars n = [Char.ofNat (48 + n)] := by
  unfold natChars
  rw [natCharsAux]
  simp [Nat.div_eq_of_lt h, Nat.mod_eq_of_lt h]

theorem natChars_step (n : Nat) (h : 10 ≤ n) :
    natChars n = natChars (n / 10) ++ [Char.ofNat (48 + n % 10)] := by
  unfold natChars
  conv_lhs => rw [natCharsAux]
  have h10 : ¬ n / 10 = 0 := by omega
  simp only [h10, dif_neg, not_false_iff]
  exact natCharsAux_acc (n / 10) [Char.ofNat (48 + n % 10)]

theorem digitChar_toNat (d : Nat) (h : d < 10) :
    (Char.ofNat (48 + d)).toNat = 48 + d := by
  interval_cases d <;> decide

theorem digitChar_isDigit (d : Nat) (h : d < 10) :
    isDigitChar (Char.ofNat (48 + d)) = true := by
  interval_cases d <;> decide

theorem natChars_all_digits (n : Nat) :
    ∀ c ∈ natChars n, isDigitChar c = true := by
  induction n using Nat.strong_induction_on with
  | _ n ih =>
    by_cases h : n < 10
    · rw [natChars_small n h]
      intro c hc
      rcases List.mem_singleton.mp hc with rfl
      exact digitChar_isDigit n h
    · rw [natChars_step n (by omega)]
      intro c hc
      rcases List.mem_append.mp hc with hc1 | hc2
      · exact ih (n / 10) (Nat.div_lt_self (by omega) (by omega)) c hc1
      · rcases List.mem_singleton.mp hc2 with rfl
        exact digitChar_isDigit (n % 10) (by omega)

theorem natChars_ne_nil (n : Nat) : natChars n ≠ [] := by
  by_cases h : n < 10
  · rw [natChars_small n h]; simp
  · rw [natChars_step n (by omega)]; simp

theorem parseNatAux_natChars (n : Nat) :
    ∀ a rest, parseNatAux a (natChars n ++ rest) =
      parseNatAux (a * 10 ^ (natChars n).length + n) rest := by
  induction n using Nat.strong_induction_on with
  | _ n ih =>
    intro a rest
    by_cases h : n < 10
    · rw [natChars_small n h]
      simp only [List.singleton_append, List.length_singleton, parseNatAux]
      rw [digitChar_toNat n h]
      simp only [digitChar_isDigit n h, if_pos]
      congr 1
      omega
    · rw [natChars_step n (by omega)]
      rw [List.append_assoc, List.singleton_append]
      rw [ih (n / 10) (Nat.div_lt_self (by omega) (by omega))]
      simp only [parseNatAux]
      rw [digitChar_toNat (n % 10) (by omega)]
      simp only [digitChar_isDigit (n % 10) (by omega), if_pos]
      congr 1
      rw [List.length_append, List.length_singleton]
      have hmod := Nat.div_add_mod n 10
      rw [pow_succ, ← mul_assoc]
      set A := a * 10 ^ (natChars (n / 10)).length with hA
      omega

theorem parseNatAux_stop (a : Nat) (rest : List Char) (h : firstNonDigit rest = true) :
    parseNatAux a rest = (a, rest) := by
  cases rest with
  | nil => rfl
  | cons c cs =>
    simp only [firstNonDigit, Bool.not_eq_true'] at h
    simp [parseNatAux, h]

theorem parseNat_natChars (n : Nat) (rest : List Char) (h : firstNonDigit rest = true) :
    parseNatAux 0 (natChars n ++ rest) = (n, rest) := by
  rw [parseNatAux_natChars, parseNatAux_stop _ _ h]
  simp

theorem digit_ne (c x : Char) (h : isDigitChar c = true)
    (hx : x.toNat < 48 ∨ 57 < x.toNat) : c ≠ x := by
  simp only [isDigitChar, Bool.and_eq_true, decide_eq_true_eq] at h
  rintro rfl
  omega

theorem digit_not_ws (c : Char) (h : isDigitChar c = true) : isWsChar c = false := by
  have h1 : c ≠ ' ' := digit_ne c ' ' h (by decide)
  have h2 : c ≠ '\n' := digit_ne c '\n' h (by decide)
  have h3 : c ≠ '\t' := digit_ne c '\t' h (by decide)
  have h4 : c ≠ '\x0d' := digit_ne c '\x0d' h (by decide)
  simp [isWsChar, h1, h2, h3, h4]

theorem skipWs_replicate (k : Nat) (rest : List Char) :
    skipWs (List.replicate k ' ' ++ rest) = skipWs rest := by
  induction k with
  | zero => rfl
  | succ k ih => simp [List.replicate_succ, skipWs, isWsChar, ih]

theorem skipWs_nlIndent (lvl : Nat) (rest : List Char) :
    skipWs (nlIndent lvl ++ rest) = skipWs rest := by
  simp [nlIndent, skipWs, isWsChar, skipWs_replicate]

theorem skipWs_not_ws (c : Char) (cs : List Char) (h : isWsChar c = false) :
    skipWs (c :: cs) = c :: cs := by
  simp [skipWs, h]

theorem hexDigitChar_hexVal (d : Nat) (h : d < 16) :
    hexVal (hexDigitChar d) = some d := by
  interval_cases d <;> decide

/-- Every Lean `Char` is a Unicode scalar value: never a surrogate, always
below 0x110000. -/
theorem char_scalar (c : Char) :
    c.toNat < 55296 ∨ (57343 < c.toNat ∧ c.toNat < 1114112) := by
  have h := c.valid
  rcases h with h | ⟨h1, h2⟩
  · left
    exact_mod_cast h
  · right
    constructor <;> exact_mod_cast ‹_›

theorem parseHex4_hex4 (n : Nat) (hn : n < 65536) (cs : List Char) :
    parseHex4 (hex4 n ++ cs) = some (n, cs) := by
  simp only [hex4, List.cons_append, List.nil_append, parseHex4,
    hexDigitChar_hexVal (n / 4096 % 16) (by omega),
    hexDigitChar_hexVal (n / 256 % 16) (by omega),
    hexDigitChar_hexVal (n / 16 % 16) (by omega),
    hexDigitChar_hexVal (n % 16) (by omega)]
  congr 1
  rw [Prod.mk.injEq]
  constructor
  · omega
  · rfl

theorem parseStringBody_quote (fuel : Nat) (cs : List Char) :
    parseStringBody (fuel + 1) ('\"' :: cs) = some ([], cs) := by
  rw [parseStringBody.eq_def]
  try dsimp only
  rw [if_pos rfl]

theorem parseStringBody_plain (fuel : Nat) (c : Char) (h1 : c ≠ '\"')
    (h2 : c ≠ '\\') (cs : List Char) :
    parseStringBody (fuel + 1) (c :: cs) =
      (match parseStringBody fuel cs with
        | some (s, rest) => some (c :: s, rest)
        | none => none) := by
  rw [parseStringBody.eq_def]
  try dsimp only
  rw [if_neg h1, if_neg h2]

theorem parseStringBody_short (fuel : Nat) (e ch : Char)
    (he : shortEscape e = some ch) (he2 : e ≠ 'u') (cs1 : List Char) :
    parseStringBody (fuel + 1) ('\\' :: e :: cs1) =
      (match parseStringBody fuel cs1 with
        | some (s, rest) => some (ch :: s, rest)
        | none => none) := by
  rw [parseStringBody.eq_def]
  try dsimp only
  rw [if_neg (by decide), if_pos rfl]
  try dsimp only
  rw [if_neg he2, he]

/-- Reading one backslash-u escape of a non-surrogate code point. -/
theorem parseStringBody_u_plain (fuel n : Nat) (hn : n < 65536)
    (hns : ¬ (55296 ≤ n ∧ n < 57344)) (cs2 : List Char) :
    parseStringBody (fuel + 1) ('\\' :: 'u' :: (hex4 n ++ cs2)) =
      (match parseStringBody fuel cs2 with
        | some (s, rest) => some (Char.ofNat n :: s, rest)
        | none => none) := by
  rw [parseStringBody.eq_def]
  try dsimp only
  rw [if_neg (by decide), if_pos rfl]
  try dsimp only
  rw [if_pos rfl, parseHex4_hex4 n (by omega)]
  try dsimp only
  rw [if_neg (by omega), if_neg (by omega)]

/-- Reading a pair of backslash-u escapes holding a high and a low
surrogate: the decoder combines them into one code point. -/
theorem parseStringBody_u_pair (fuel n m : Nat)
    (hn1 : 55296 ≤ n) (hn2 : n < 56320) (hm1 : 56320 ≤ m) (hm2 : m < 57344)
    (cs3 : List Char) :
    parseStringBody (fuel + 1)
        ('\\' :: 'u' :: (hex4 n ++ ('\\' :: 'u' :: (hex4 m ++ cs3)))) =
      (match parseStringBody fuel cs3 with
        | some (s, rest) =>
          some (Char.ofNat (65536 + (n - 55296) * 1024 + (m - 56320)) :: s, rest)
        | none => none) := by
  rw [parseStringBody.eq_def]
  try dsimp only
  rw [if_neg (by decide), if_pos rfl]
  try dsimp only
  rw [if_pos rfl, parseHex4_hex4 n (by omega)]
  try dsimp only
  rw [if_pos (by omega)]
  try dsimp only
  rw [if_pos (by exact ⟨rfl, rfl⟩), parseHex4_hex4 m (by omega)]
  try dsimp only
  rw [if_pos (by omega)]

set_option maxHeartbeats 2000000 in
theorem escapeChar_length_pos (c : Char) : 1 ≤ (escapeChar c).length := by
  unfold escapeChar
  split_ifs <;> simp [hex4]

theorem escapeList_length (s : List Char) : s.length ≤ (escapeList s).length := by
  induction s with
  | nil => simp [escapeList]
  | cons c s' ih =>
    have := escapeChar_length_pos c
    simp only [escapeList, List.length_append, List.length_cons]
    omega

/-- Decoding inverts escaping: with enough fuel, the body parser reads back
exactly the characters that were escaped, consuming the closing quote. -/
theorem parseStringBody_escape (s : List Char) :
    ∀ fuel rest, s.length < fuel →
      parseStringBody fuel (escapeList s ++ '\"' :: rest) = some (s, rest) := by
  induction s with
  | nil =>
    intro fuel rest hf
    obtain ⟨f, rfl⟩ : ∃ f, fuel = f + 1 := ⟨fuel - 1, by omega⟩
    show parseStringBody (f + 1) ('\"' :: rest) = some ([], rest)
    exact parseStringBody_quote f rest
  | cons c s' ih =>
    intro fuel rest hf
    obtain ⟨f, rfl⟩ : ∃ f, fuel = f + 1 := ⟨fuel - 1, by omega⟩
    have hlen : s'.length < f := by
      simp only [List.length_cons] at hf
      omega
    have ihf := ih f rest hlen
    show parseStringBody (f + 1) (escapeChar c ++ escapeList s' ++ '\"' :: rest) = _
    rw [List.append_assoc]
    by_cases h1 : c = '\"'
    · subst h1
      rw [show escapeChar '\"' = ['\\', '\"'] from rfl]
      rw [show (['\\', '\"'] : List Char) ++ (escapeList s' ++ '\"' :: rest) =
        '\\' :: '\"' :: (escapeList s' ++ '\"' :: rest) from rfl]
      rw [parseStringBody_short f '\"' '\"' (by decide) (by decide), ihf]
    by_cases h2 : c = '\\'
    · subst h2
      rw [show escapeChar '\\' = ['\\', '\\'] from by simp [escapeChar]]
      rw [show (['\\', '\\'] : List Char) ++ (escapeList s' ++ '\"' :: rest) =
        '\\' :: '\\' :: (escapeList s' ++ '\"' :: rest) from rfl]
      rw [parseStringBody_short f '\\' '\\' (by decide) (by decide), ihf]
    by_cases h3 : c = '\n'
    · subst h3
      rw [show escapeChar '\n' = ['\\', 'n'] from by simp [escapeChar]]
      rw [show (['\\', 'n'] : List Char) ++ (escapeList s' ++ '\"' :: rest) =
        '\\' :: 'n' :: (escapeList s' ++ '\"' :: rest) from rfl]
      rw [parseStringBody_short f 'n' '\n' (by decide) (by decide), ihf]
    by_cases h4 : c = '\t'
    · subst h4
      rw [show escapeChar '\t' = ['\\', 't'] from by simp [escapeChar]]
      rw [show (['\\', 't'] : List Char) ++ (escapeList s' ++ '\"' :: rest) =
        '\\' :: 't' :: (escapeList s' ++ '\"' :: rest) from rfl]
      rw [parseStringBody_short f 't' '\t' (by decide) (by decide), ihf]
    by_cases h5 : c = '\x0d'
    · subst h5
      rw [show escapeChar '\x0d' = ['\\', 'r'] from by simp [escapeChar]]
      rw [show (['\\', 'r'] : List Char) ++ (escapeList s' ++ '\"' :: rest) =
        '\\' :: 'r' :: (escapeList s' ++ '\"' :: rest) from rfl]
      rw [parseStringBody_short f 'r' '\x0d' (by decide) (by decide), ihf]
    by_cases h6 : c = '\x08'
    · subst h6
      rw [show escapeChar '\x08' = ['\\', 'b'] from by simp [escapeChar]]
      rw [show (['\\', 'b'] : List Char) ++ (escapeList s' ++ '\"' :: rest) =
        '\\' :: 'b' :: (escapeList s' ++ '\"' :: rest) from rfl]
      rw [parseStringBody_short f 'b' '\x08' (by decide) (by decide), ihf]
    by_cases h7 : c = '\x0c'
    · subst h7
      rw [show escapeChar '\x0c' = ['\\', 'f'] from by simp [escapeChar]]
      rw [show (['\\', 'f'] : List Char) ++ (escapeList s' ++ '\"' :: rest) =
        '\\' :: 'f' :: (escapeList s' ++ '\"' :: rest) from rfl]
      rw [parseStringBody_short f 'f' '\x0c' (by decide) (by decide), ihf]
    by_cases h8 : c.toNat < 32
    · have hesc : escapeChar c = '\\' :: 'u' :: hex4 c.toNat := by
        simp [escapeChar, h1, h2, h3, h4, h5, h6, h7, h8]
      rw [hesc]
      rw [show ('\\' :: 'u' :: hex4 c.toNat) ++ (escapeList s' ++ '\"' :: rest) =
        '\\' :: 'u' :: (hex4 c.toNat ++ (escapeList s' ++ '\"' :: rest)) from by
          simp]
      rw [parseStringBody_u_plain f c.toNat (by omega) (by omega), ihf]
      rw [Char.ofNat_toNat]
    by_cases h9 : c.toNat < 127
    · have hesc : escapeChar c = [c] := by
        simp [escapeChar, h1, h2, h3, h4, h5, h6, h7, h8, h9]
      rw [hesc]
      rw [show ([c] : List Char) ++ (escapeList s' ++ '\"' :: rest) =
        c :: (escapeList s' ++ '\"' :: rest) from rfl]
      rw [parseStringBody_plain f c h1 h2, ihf]
    by_cases h10 : c.toNat < 65536
    · have hscal := char_scalar c
      have hesc : escapeChar c = '\\' :: 'u' :: hex4 c.toNat := by
        simp [escapeChar, h1, h2, h3, h4, h5, h6, h7, h8, h9, h10]
      rw [hesc]
      rw [show ('\\' :: 'u' :: hex4 c.toNat) ++ (escapeList s' ++ '\"' :: rest) =
        '\\' :: 'u' :: (hex4 c.toNat ++ (escapeList s' ++ '\"' :: rest)) from by
          simp]
      rw [parseStringBody_u_plain f c.toNat (by omega) (by omega), ihf]
      rw [Char.ofNat_toNat]
    · have hscal := char_scalar c
      have hesc : escapeChar c =
          ('\\' :: 'u' :: hex4 (55296 + (c.toNat - 65536) / 1024)) ++
          ('\\' :: 'u' :: hex4 (56320 + (c.toNat - 65536) % 1024)) := by
        simp [escapeChar, h1, h2, h3, h4, h5, h6, h7, h8, h9, h10]
      have hhi : (c.toNat - 65536) / 1024 < 1024 := by omega
      have hlo : (c.toNat - 65536) % 1024 < 1024 := Nat.mod_lt _ (by omega)
      rw [hesc]
      rw [show (('\\' :: 'u' :: hex4 (55296 + (c.toNat - 65536) / 1024)) ++
          ('\\' :: 'u' :: hex4 (56320 + (c.toNat - 65536) % 1024))) ++
          (escapeList s' ++ '\"' :: rest) =
        '\\' :: 'u' :: (hex4 (55296 + (c.toNat - 65536) / 1024) ++
          ('\\' :: 'u' :: (hex4 (56320 + (c.toNat - 65536) % 1024) ++
            (escapeList s' ++ '\"' :: rest)))) from by simp]
      rw [parseStringBody_u_pair f (55296 + (c.toNat - 65536) / 1024)
        (56320 + (c.toNat - 65536) % 1024) (by omega) (by omega) (by omega)
        (by omega), ihf]
      have hchar : 65536 + (55296 + (c.toNat - 65536) / 1024 - 55296) * 1024 +
          (56320 + (c.toNat - 65536) % 1024 - 56320) = c.toNat := by
        have := Nat.div_add_mod (c.toNat - 65536) 1024
        omega
      rw [hchar, Char.ofNat_toNat]

/-- `parseElems` at positive fuel, unfolded to its body. -/
theorem parseElems_succ (fuel : Nat) (cs : List Char) :
    parseElems (fuel + 1) cs =
      (match parseValue fuel cs with
       | none => none
       | some (v, rest) =>
         match skipWs rest with
         | [] => none
         | d :: rest2 =>
           if d = ',' then (parseElems fuel (skipWs rest2)).map (fun p => (v :: p.1, p.2))
           else if d = ']' then some ([v], rest2)
           else none) := by
  rw [parseElems.eq_def]

/-- `parseMembers` at positive fuel on a quote-headed input, unfolded. -/
theorem parseMembers_succ (fuel : Nat) (cs1 : List Char) :
    parseMembers (fuel + 1) ('\"' :: cs1) =
      (match parseStringBody cs1.length cs1 with
       | none => none
       | some (k, rest) =>
         match skipWs rest with
         | [] => none
         | d :: rest2 =>
           if d = ':' then
             match parseValue fuel (skipWs rest2) with
             | none => none
             | some (v, rest3) =>
               match skipWs rest3 with
               | [] => none
               | e :: rest4 =>
                 if e = ',' then
                   (parseMembers fuel (skipWs rest4)).map
                     (fun p => ((k, v) :: p.1, p.2))
                 else if e = '}' then some ([(k, v)], rest4)
                 else none
           else none) := by
  rw [parseMembers.eq_def]
  try dsimp only
  rw [if_pos rfl]

theorem parseValue_null (fuel : Nat) (rest : List Char) :
    parseValue (fuel + 1) ('n' :: 'u' :: 'l' :: 'l' :: rest) = some (.null, rest) := by
  rw [parseValue.eq_def]
  try dsimp only
  rw [if_pos rfl]
  simp [stripLits]

theorem parseValue_true (fuel : Nat) (rest : List Char) :
    parseValue (fuel + 1) ('t' :: 'r' :: 'u' :: 'e' :: rest) = some (.bool true, rest) := by
  rw [parseValue.eq_def]
  try dsimp only
  rw [if_neg (by decide), if_pos rfl]
  simp [stripLits]

theorem parseValue_false (fuel : Nat) (rest : List Char) :
    parseValue (fuel + 1) ('f' :: 'a' :: 'l' :: 's' :: 'e' :: rest) =
      some (.bool false, rest) := by
  rw [parseValue.eq_def]
  try dsimp only
  rw [if_neg (by decide), if_neg (by decide), if_pos rfl]
  simp [stripLits]

/-- Decoding the printed form of a string value. -/
theorem parseValue_string (fuel : Nat) (s rest : List Char) :
    parseValue (fuel + 1) (escapeString s ++ rest) = some (.str s, rest) := by
  have hshape : escapeString s ++ rest = '\"' :: (escapeList s ++ ('\"' :: rest)) := by
    simp [escapeString]
  rw [hshape, parseValue.eq_def]
  try dsimp only
  rw [if_neg (by decide), if_neg (by decide), if_neg (by decide), if_pos rfl]
  have hlen : s.length < (escapeList s ++ ('\"' :: rest)).length := by
    have := escapeList_length s
    simp only [List.length_append, List.length_cons]
    omega
  rw [parseStringBody_escape s _ rest hlen]
  rfl

/-- Decoding the printed form of an integer, when no digit follows it. -/
theorem parseValue_int (fuel : Nat) (i : Int) (rest : List Char)
    (h : firstNonDigit rest = true) :
    parseValue (fuel + 1) (intChars i ++ rest) = some (.int i, rest) := by
  by_cases hi : i < 0
  · have hshape : intChars i ++ rest = '-' :: (natChars i.natAbs ++ rest) := by
      simp [intChars, hi]
    rw [hshape, parseValue.eq_def]
    try dsimp only
    rw [if_neg (by decide), if_neg (by decide), if_neg (by decide), if_neg (by decide),
      if_pos rfl]
    cases hn : natChars i.natAbs with
    | nil => exact absurd hn (natChars_ne_nil _)
    | cons d tail =>
      have hd : isDigitChar d = true := by
        have := natChars_all_digits i.natAbs
        rw [hn] at this
        exact this d (List.mem_cons_self d tail)
      rw [List.cons_append]
      try dsimp only
      rw [if_pos hd, ← List.cons_append, ← hn, parseNat_natChars _ _ h]
      try dsimp only
      have : -((i.natAbs : Nat) : Int) = i := by omega
      rw [this]
  · have hshape : intChars i ++ rest = natChars i.natAbs ++ rest := by
      simp [intChars, hi]
    rw [hshape]
    cases hn : natChars i.natAbs with
    | nil => exact absurd hn (natChars_ne_nil _)
    | cons d tail =>
      have hd : isDigitChar d = true := by
        have := natChars_all_digits i.natAbs
        rw [hn] at this
        exact this d (List.mem_cons_self d tail)
      rw [List.cons_append, parseValue.eq_def]
      try dsimp only
      rw [if_neg (digit_ne d 'n' hd (by decide)), if_neg (digit_ne d 't' hd (by decide)),
        if_neg (digit_ne d 'f' hd (by decide)), if_neg (digit_ne d '\"' hd (by decide)),
        if_neg (digit_ne d '-' hd (by decide)), if_pos hd]
      rw [← List.cons_append, ← hn, parseNat_natChars _ _ h]
      try dsimp only
      have : ((i.natAbs : Nat) : Int) = i := by omega
      rw [this]

theorem parseValue_arr_nil (fuel : Nat) (rest : List Char) :
    parseValue (fuel + 1) ('[' :: ']' :: rest) = some (.arr [], rest) := by
  rw [parseValue.eq_def]
  try dsimp only
  rw [if_neg (by decide), if_neg (by decide), if_neg (by decide), if_neg (by decide),
    if_neg (by decide), if_neg (by decide), if_pos rfl]
  rw [skipWs_not_ws _ _ (by decide)]
  try dsimp only
  rw [if_pos rfl]

theorem parseValue_obj_nil (fuel : Nat) (rest : List Char) :
    parseValue (fuel + 1) ('{' :: '}' :: rest) = some (.obj [], rest) := by
  rw [parseValue.eq_def]
  try dsimp only
  rw [if_neg (by decide), if_neg (by decide), if_neg (by decide), if_neg (by decide),
    if_neg (by decide), if_neg (by decide), if_neg (by decide), if_pos rfl]
  rw [skipWs_not_ws _ _ (by decide)]
  try dsimp only
  rw [if_pos rfl]

/-- Decoding a non-empty array literal: the head character after the bracket
and whitespace selects the element decoder. -/
theorem parseValue_arr (fuel : Nat) (cs : List Char) (d : Char) (rest' : List Char)
    (hskip : skipWs cs = d :: rest') (hne : d ≠ ']') :
    parseValue (fuel + 1) ('[' :: cs) =
      (parseElems fuel (d :: rest')).map (fun p => (Json.arr p.1, p.2)) := by
  rw [parseValue.eq_def]
  try dsimp only
  rw [if_neg (by decide), if_neg (by decide), if_neg (by decide), if_neg (by decide),
    if_neg (by decide), if_neg (by decide), if_pos rfl, hskip]
  try dsimp only
  rw [if_neg hne]

theorem parseValue_obj (fuel : Nat) (cs : List Char) (d : Char) (rest' : List Char)
    (hskip : skipWs cs = d :: rest') (hne : d ≠ '}') :
    parseValue (fuel + 1) ('{' :: cs) =
      (parseMembers fuel (d :: rest')).map (fun p => (Json.obj p.1, p.2)) := by
  rw [parseValue.eq_def]
  try dsimp only
  rw [if_neg (by decide), if_neg (by decide), if_neg (by decide), if_neg (by decide),
    if_neg (by decide), if_neg (by decide), if_neg (by decide), if_pos rfl, hskip]
  try dsimp only
  rw [if_neg hne]

theorem skipWs_space (cs : List Char) : skipWs (' ' :: cs) = skipWs cs := by
  simp [skipWs, isWsChar]

/-- The printed form of every JSON value begins with a value-head
character. -/
theorem dumpVal_head (lvl : Nat) (v : Json) :
    ∃ c cs, dumpVal lvl v = c :: cs ∧ isValueHead c = true := by
  cases v with
  | null => exact ⟨'n', ['u', 'l', 'l'], by simp [dumpVal, nullChars], by decide⟩
  | bool b =>
    cases b with
    | true => exact ⟨'t', ['r', 'u', 'e'], by simp [dumpVal, trueChars], by decide⟩
    | false => exact ⟨'f', ['a', 'l', 's', 'e'], by simp [dumpVal, falseChars], by decide⟩
  | int i =>
    by_cases hi : i < 0
    · exact ⟨'-', natChars i.natAbs, by simp [dumpVal, intChars, hi], by decide⟩
    · cases hn : natChars i.natAbs with
      | nil => exact absurd hn (natChars_ne_nil _)
      | cons d tail =>
        have hd : isDigitChar d = true := by
          have := natChars_all_digits i.natAbs
          rw [hn] at this
          exact this d (List.mem_cons_self d tail)
        exact ⟨d, tail, by simp [dumpVal, intChars, hi, hn],
          by simp [isValueHead, hd]⟩
  | str s => exact ⟨'\"', escapeList s ++ ['\"'], by simp [dumpVal, escapeString], by decide⟩
  | arr xs =>
    cases xs with
    | nil => exact ⟨'[', [']'], by simp [dumpVal], by decide⟩
    | cons x xs' =>
      exact ⟨'[', nlIndent (lvl + 1) ++ (dumpVal (lvl + 1) x ++
        (dumpItems (lvl + 1) xs' ++ (nlIndent lvl ++ [']']))), by simp [dumpVal], by decide⟩
  | obj kvs =>
    cases kvs with
    | nil => exact ⟨'{', ['}'], by simp [dumpVal], by decide⟩
    | cons p ps =>
      exact ⟨'{', nlIndent (lvl + 1) ++ (dumpPair (lvl + 1) p ++
        (dumpPairs (lvl + 1) ps ++ (nlIndent lvl ++ ['}']))), by simp [dumpVal], by decide⟩

theorem valueHead_not_ws (c : Char) (h : isValueHead c = true) : isWsChar c = false := by
  simp only [isValueHead, Bool.or_eq_true, decide_eq_true_eq] at h
  rcases h with ((((((rfl | rfl) | rfl) | rfl) | rfl) | rfl) | rfl) | hd
  · decide
  · decide
  · decide
  · decide
  · decide
  · decide
  · decide
  · exact digit_not_ws c hd

theorem valueHead_ne_rbrack (c : Char) (h : isValueHead c = true) : c ≠ ']' := by
  simp only [isValueHead, Bool.or_eq_true, decide_eq_true_eq] at h
  rcases h with ((((((rfl | rfl) | rfl) | rfl) | rfl) | rfl) | rfl) | hd
  · decide
  · decide
  · decide
  · decide
  · decide
  · decide
  · decide
  · exact digit_ne c ']' hd (by decide)

theorem valueHead_ne_rbrace (c : Char) (h : isValueHead c = true) : c ≠ '}' := by
  simp only [isValueHead, Bool.or_eq_true, decide_eq_true_eq] at h
  rcases h with ((((((rfl | rfl) | rfl) | rfl) | rfl) | rfl) | rfl) | hd
  · decide
  · decide
  · decide
  · decide
  · decide
  · decide
  · decide
  · exact digit_ne c '}' hd (by decide)

/-- The decoder's whitespace skip leaves a printed value alone. -/
theorem skipWs_dump (lvl : Nat) (v : Json) (rest : List Char) :
    skipWs (dumpVal lvl v ++ rest) = dumpVal lvl v ++ rest := by
  obtain ⟨c, cs, hcv, hh⟩ := dumpVal_head lvl v
  rw [hcv, List.cons_append, skipWs_not_ws _ _ (valueHead_not_ws c hh)]

theorem jfuel_pos (v : Json) : 1 ≤ jfuel v := by
  cases v <;> simp [jfuel]

/-- Fuel bound for the elements of an array, given bounds for each
element. -/
theorem jfuelList_le_dumpItems :
    ∀ l : List Json, (∀ x ∈ l, ∀ lvl, jfuel x ≤ (dumpVal lvl x).length) →
      ∀ lvl, jfuelList l ≤ (dumpItems lvl l).length := by
  intro l
  induction l with
  | nil => intro _ lvl; simp [jfuelList, dumpItems]
  | cons x xs ih =>
    intro hmem lvl
    have h1 := hmem x (List.mem_cons_self x xs) lvl
    have h2 := ih (fun y hy => hmem y (List.mem_cons_of_mem x hy)) lvl
    simp only [jfuelList, dumpItems, List.length_cons, List.length_append]
    omega

/-- Fuel bound for the members of an object, given bounds for each member
value. -/
theorem jfuelPairs_le_dumpPairs :
    ∀ l : List (List Char × Json),
      (∀ p ∈ l, ∀ lvl, jfuel p.2 ≤ (dumpVal lvl p.2).length) →
      ∀ lvl, jfuelPairs l ≤ (dumpPairs lvl l).length := by
  intro l
  induction l with
  | nil => intro _ lvl; simp [jfuelPairs, dumpPairs]
  | cons p ps ih =>
    intro hmem lvl
    obtain ⟨k, v⟩ := p
    have h1 : jfuel v ≤ (dumpVal lvl v).length :=
      hmem (k, v) (List.mem_cons_self _ ps) lvl
    have h2 := ih (fun q hq => hmem q (List.mem_cons_of_mem _ hq)) lvl
    simp only [jfuelPairs, dumpPairs, dumpPair, List.length_cons, List.length_append]
    omega

/-- The length of the printed form bounds the fuel the decoder needs. -/
theorem jfuel_le_dump (v : Json) : ∀ lvl, jfuel v ≤ (dumpVal lvl v).length := by
  induction v using jsonInd with
  | hnull => intro lvl; simp [jfuel, dumpVal, nullChars]
  | hbool b => intro lvl; cases b <;> simp [jfuel, dumpVal, trueChars, falseChars]
  | hint i =>
    intro lvl
    have := natChars_ne_nil i.natAbs
    have hpos : 1 ≤ (natChars i.natAbs).length :=
      List.length_pos.mpr (natChars_ne_nil i.natAbs)
    by_cases hi : i < 0
    · simp [jfuel, dumpVal, intChars, hi]
    · simp [jfuel, dumpVal, intChars, hi]
      omega
  | hstr s => intro lvl; simp [jfuel, dumpVal, escapeString]
  | harr xs ih =>
    intro lvl
    cases xs with
    | nil => simp [jfuel, jfuelList, dumpVal]
    | cons x xs' =>
      have h1 := ih x (List.mem_cons_self x xs') (lvl + 1)
      have h2 := jfuelList_le_dumpItems xs'
        (fun y hy => ih y (List.mem_cons_of_mem x hy)) (lvl + 1)
      simp only [jfuel, jfuelList, dumpVal, List.length_cons, List.length_append,
        nlIndent, List.length_replicate]
      omega
  | hobj kvs ih =>
    intro lvl
    cases kvs with
    | nil => simp [jfuel, jfuelPairs, dumpVal]
    | cons p ps =>
      obtain ⟨k, v⟩ := p
      have h1 : jfuel v ≤ (dumpVal (lvl + 1) v).length :=
        ih (k, v) (List.mem_cons_self _ ps) (lvl + 1)
      have h2 := jfuelPairs_le_dumpPairs ps
        (fun q hq => ih q (List.mem_cons_of_mem _ hq)) (lvl + 1)
      simp only [jfuel, jfuelPairs, dumpVal, dumpPair, List.length_cons,
        List.length_append, nlIndent, List.length_replicate]
      omega


/-- Joint correctness of the decoder on printed values: with fuel at least
the value's `jfuel`, `parseValue` reads back exactly the printed value, and
`parseElems`/`parseMembers` read back printed element and member lists up to
and past the closing bracket. -/
theorem parse_dump (fuel : Nat) :
    (∀ v lvl rest, jfuel v ≤ fuel → firstNonDigit rest = true →
        parseValue fuel (dumpVal lvl v ++ rest) = some (v, rest)) ∧
    (∀ x xs lvl lvl2 rest, jfuelList (x :: xs) ≤ fuel →
        parseElems fuel
            (dumpVal lvl x ++ (dumpItems lvl xs ++ (nlIndent lvl2 ++ (']' :: rest)))) =
          some (x :: xs, rest)) ∧
    (∀ k v kvs lvl lvl2 rest, jfuelPairs ((k, v) :: kvs) ≤ fuel →
        parseMembers fuel
            (dumpPair lvl (k, v) ++
              (dumpPairs lvl kvs ++ (nlIndent lvl2 ++ ('}' :: rest)))) =
          some ((k, v) :: kvs, rest)) := by
  induction fuel with
  | zero =>
    refine ⟨?_, ?_, ?_⟩
    · intro v lvl rest hf _
      have := jfuel_pos v
      omega
    · intro x xs lvl lvl2 rest hf
      simp only [jfuelList] at hf
      omega
    · intro k v kvs lvl lvl2 rest hf
      simp only [jfuelPairs] at hf
      omega
  | succ f ih =>
    obtain ⟨P, Q, R⟩ := ih
    refine ⟨?_, ?_, ?_⟩
    · intro v lvl rest hf hrest
      cases v with
      | null =>
        have hshape : dumpVal lvl Json.null ++ rest = 'n' :: 'u' :: 'l' :: 'l' :: rest := by
          simp [dumpVal, nullChars]
        rw [hshape, parseValue_null]
      | bool b =>
        cases b with
        | true =>
          have hshape : dumpVal lvl (Json.bool true) ++ rest =
              't' :: 'r' :: 'u' :: 'e' :: rest := by
            simp [dumpVal, trueChars]
          rw [hshape, parseValue_true]
        | false =>
          have hshape : dumpVal lvl (Json.bool false) ++ rest =
              'f' :: 'a' :: 'l' :: 's' :: 'e' :: rest := by
            simp [dumpVal, falseChars]
          rw [hshape, parseValue_false]
      | int i =>
        have hshape : dumpVal lvl (Json.int i) ++ rest = intChars i ++ rest := by
          simp [dumpVal]
        rw [hshape, parseValue_int f i rest hrest]
      | str s =>
        have hshape : dumpVal lvl (Json.str s) ++ rest = escapeString s ++ rest := by
          simp [dumpVal]
        rw [hshape, parseValue_string]
      | arr xs =>
        cases xs with
        | nil =>
          have hshape : dumpVal lvl (Json.arr []) ++ rest = '[' :: ']' :: rest := by
            simp [dumpVal]
          rw [hshape, parseValue_arr_nil]
        | cons x xs' =>
          have hshape : dumpVal lvl (Json.arr (x :: xs')) ++ rest =
              '[' :: (nlIndent (lvl + 1) ++ (dumpVal (lvl + 1) x ++
                (dumpItems (lvl + 1) xs' ++ (nlIndent lvl ++ (']' :: rest))))) := by
            simp [dumpVal, List.append_assoc]
          obtain ⟨c, cs0, hcv, hh⟩ := dumpVal_head (lvl + 1) x
          have hskip : skipWs (nlIndent (lvl + 1) ++ (dumpVal (lvl + 1) x ++
              (dumpItems (lvl + 1) xs' ++ (nlIndent lvl ++ (']' :: rest))))) =
              c :: (cs0 ++ (dumpItems (lvl + 1) xs' ++
                (nlIndent lvl ++ (']' :: rest)))) := by
            rw [skipWs_nlIndent, hcv, List.cons_append,
              skipWs_not_ws _ _ (valueHead_not_ws c hh)]
          rw [hshape, parseValue_arr f _ c _ hskip (valueHead_ne_rbrack c hh)]
          have harg : c :: (cs0 ++ (dumpItems (lvl + 1) xs' ++
              (nlIndent lvl ++ (']' :: rest)))) =
              dumpVal (lvl + 1) x ++ (dumpItems (lvl + 1) xs' ++
                (nlIndent lvl ++ (']' :: rest))) := by
            rw [hcv, List.cons_append]
          have hfl : jfuelList (x :: xs') ≤ f := by
            simp only [jfuel] at hf
            omega
          rw [harg, Q x xs' (lvl + 1) lvl rest hfl]
          rfl
      | obj kvs =>
        cases kvs with
        | nil =>
          have hshape : dumpVal lvl (Json.obj []) ++ rest = '{' :: '}' :: rest := by
            simp [dumpVal]
          rw [hshape, parseValue_obj_nil]
        | cons p ps =>
          obtain ⟨k, v⟩ := p
          have hshape : dumpVal lvl (Json.obj ((k, v) :: ps)) ++ rest =
              '{' :: (nlIndent (lvl + 1) ++ (dumpPair (lvl + 1) (k, v) ++
                (dumpPairs (lvl + 1) ps ++ (nlIndent lvl ++ ('}' :: rest))))) := by
            simp [dumpVal, List.append_assoc]
          have hdp : dumpPair (lvl + 1) (k, v) ++
              (dumpPairs (lvl + 1) ps ++ (nlIndent lvl ++ ('}' :: rest))) =
              '\"' :: (escapeList k ++ ('\"' :: (':' :: ' ' :: (dumpVal (lvl + 1) v ++
                (dumpPairs (lvl + 1) ps ++ (nlIndent lvl ++ ('}' :: rest))))))) := by
            simp [dumpPair, escapeString, List.append_assoc]
          have hskip : skipWs (nlIndent (lvl + 1) ++ (dumpPair (lvl + 1) (k, v) ++
              (dumpPairs (lvl + 1) ps ++ (nlIndent lvl ++ ('}' :: rest))))) =
              '\"' :: (escapeList k ++ ('\"' :: (':' :: ' ' :: (dumpVal (lvl + 1) v ++
                (dumpPairs (lvl + 1) ps ++ (nlIndent lvl ++ ('}' :: rest))))))) := by
            rw [skipWs_nlIndent, hdp, skipWs_not_ws _ _ (by decide)]
          rw [hshape, parseValue_obj f _ '\"' _ hskip (by decide)]
          have hfp : jfuelPairs ((k, v) :: ps) ≤ f := by
            simp only [jfuel] at hf
            omega
          have hR := R k v ps (lvl + 1) lvl rest hfp
          rw [← hdp] at hskip
          rw [show ('\"' :: (escapeList k ++ ('\"' :: (':' :: ' ' ::
            (dumpVal (lvl + 1) v ++ (dumpPairs (lvl + 1) ps ++
              (nlIndent lvl ++ ('}' :: rest)))))))) =
            dumpPair (lvl + 1) (k, v) ++ (dumpPairs (lvl + 1) ps ++
              (nlIndent lvl ++ ('}' :: rest))) from hdp.symm, hR]
          rfl
    · intro x xs lvl lvl2 rest hf
      rw [parseElems_succ]
      have hx : jfuel x ≤ f := by
        simp only [jfuelList] at hf
        omega
      have hnd : firstNonDigit (dumpItems lvl xs ++
          (nlIndent lvl2 ++ (']' :: rest))) = true := by
        cases xs with
        | nil => simp [dumpItems, nlIndent, firstNonDigit, isDigitChar]
        | cons a b => simp [dumpItems, firstNonDigit, isDigitChar]
      rw [P x lvl _ hx hnd]
      try dsimp only
      cases xs with
      | nil =>
        rw [show dumpItems lvl ([] : List Json) = [] from by simp [dumpItems],
          List.nil_append, skipWs_nlIndent, skipWs_not_ws _ _ (by decide)]
        try dsimp only
        rw [if_neg (by decide), if_pos rfl]
      | cons x' xs'' =>
        rw [show dumpItems lvl (x' :: xs'') =
          ',' :: (nlIndent lvl ++ dumpVal lvl x' ++ dumpItems lvl xs'') from by
            simp [dumpItems]]
        rw [List.cons_append, skipWs_not_ws _ _ (by decide)]
        try dsimp only
        rw [if_pos rfl]
        have hr : (nlIndent lvl ++ dumpVal lvl x' ++ dumpItems lvl xs'') ++
            (nlIndent lvl2 ++ (']' :: rest)) =
            nlIndent lvl ++ (dumpVal lvl x' ++ (dumpItems lvl xs'' ++
              (nlIndent lvl2 ++ (']' :: rest)))) := by
          simp [List.append_assoc]
        rw [hr, skipWs_nlIndent, skipWs_dump]
        have hfl : jfuelList (x' :: xs'') ≤ f := by
          simp only [jfuelList] at hf ⊢
          omega
        rw [Q x' xs'' lvl lvl2 rest hfl]
        rfl
    · intro k v kvs lvl lvl2 rest hf
      have hcs : dumpPair lvl (k, v) ++
          (dumpPairs lvl kvs ++ (nlIndent lvl2 ++ ('}' :: rest))) =
          '\"' :: (escapeList k ++ ('\"' :: (':' :: ' ' :: (dumpVal lvl v ++
            (dumpPairs lvl kvs ++ (nlIndent lvl2 ++ ('}' :: rest))))))) := by
        simp [dumpPair, escapeString, List.append_assoc]
      rw [hcs, parseMembers_succ]
      have hlen : k.length < (escapeList k ++ ('\"' :: (':' :: ' ' ::
          (dumpVal lvl v ++ (dumpPairs lvl kvs ++
            (nlIndent lvl2 ++ ('}' :: rest))))))).length := by
        have := escapeList_length k
        simp only [List.length_append, List.length_cons]
        omega
      rw [parseStringBody_escape k _ _ hlen]
      try dsimp only
      rw [skipWs_not_ws _ _ (by decide)]
      try dsimp only
      rw [if_pos rfl, skipWs_space, skipWs_dump]
      have hv : jfuel v ≤ f := by
        simp only [jfuelPairs] at hf
        omega
      have hnd : firstNonDigit (dumpPairs lvl kvs ++
          (nlIndent lvl2 ++ ('}' :: rest))) = true := by
        cases kvs with
        | nil => simp [dumpPairs, nlIndent, firstNonDigit, isDigitChar]
        | cons p ps => simp [dumpPairs, firstNonDigit, isDigitChar]
      rw [P v lvl _ hv hnd]
      try dsimp only
      cases kvs with
      | nil =>
        rw [show dumpPairs lvl ([] : List (List Char × Json)) = [] from by
            simp [dumpPairs],
          List.nil_append, skipWs_nlIndent, skipWs_not_ws _ _ (by decide)]
        try dsimp only
        rw [if_neg (by decide), if_pos rfl]
      | cons p ps =>
        obtain ⟨k', v'⟩ := p
        rw [show dumpPairs lvl ((k', v') :: ps) =
          ',' :: (nlIndent lvl ++ dumpPair lvl (k', v') ++ dumpPairs lvl ps) from by
            simp [dumpPairs]]
        rw [List.cons_append, skipWs_not_ws _ _ (by decide)]
        try dsimp only
        rw [if_pos rfl]
        have hr : (nlIndent lvl ++ dumpPair lvl (k', v') ++ dumpPairs lvl ps) ++
            (nlIndent lvl2 ++ ('}' :: rest)) =
            nlIndent lvl ++ (dumpPair lvl (k', v') ++ (dumpPairs lvl ps ++
              (nlIndent lvl2 ++ ('}' :: rest)))) := by
          simp [List.append_assoc]
        rw [hr, skipWs_nlIndent]
        have hdp2 : dumpPair lvl (k', v') ++ (dumpPairs lvl ps ++
            (nlIndent lvl2 ++ ('}' :: rest))) =
            '\"' :: (escapeList k' ++ ('\"' :: (':' :: ' ' :: (dumpVal lvl v' ++
              (dumpPairs lvl ps ++ (nlIndent lvl2 ++ ('}' :: rest))))))) := by
          simp [dumpPair, escapeString, List.append_assoc]
        rw [hdp2, skipWs_not_ws _ _ (by decide), ← hdp2]
        have hfp : jfuelPairs ((k', v') :: ps) ≤ f := by
          simp only [jfuelPairs] at hf ⊢
          omega
        rw [R k' v' ps lvl lvl2 rest hfp]
        rfl



/-- Sorting an already sorted member list is the identity, so the key sort
is idempotent. -/
theorem sortPairs_idem (ps : List (List Char × Json)) :
    sortPairs (sortPairs ps) = sortPairs ps :=
  List.Sorted.insertionSort_eq (List.sorted_insertionSort keyLe ps)

/-- The recursive member-value sort is the map of the pair-wise sort. -/
theorem sortJsonPairs_map (ps : List (List Char × Json)) :
    sortJsonPairs ps = ps.map (fun p => (p.1, sortJson p.2)) := by
  induction ps with
  | nil => simp [sortJsonPairs]
  | cons p ps ih =>
    obtain ⟨k, v⟩ := p
    simp [sortJsonPairs, ih]

/-- Sorting members by key commutes with sorting the member values
recursively (the map leaves keys unchanged). -/
theorem sortJsonPairs_sortPairs (ps : List (List Char × Json)) :
    sortJsonPairs (sortPairs ps) = sortPairs (sortJsonPairs ps) := by
  rw [sortJsonPairs_map, sortJsonPairs_map]
  unfold sortPairs
  exact List.map_insertionSort keyLe keyLe
    (fun p : List Char × Json => (p.1, sortJson p.2)) ps (fun a _ b _ => Iff.rfl)

/-- The key-sort pre-pass is idempotent. -/
theorem sortJson_idem (v : Json) : sortJson (sortJson v) = sortJson v := by
  induction v using jsonInd with
  | hnull => simp [sortJson]
  | hbool b => simp [sortJson]
  | hint n => simp [sortJson]
  | hstr s => simp [sortJson]
  | harr xs ih =>
    have hlist : ∀ l : List Json, (∀ x ∈ l, sortJson (sortJson x) = sortJson x) →
        sortJsonList (sortJsonList l) = sortJsonList l := by
      intro l
      induction l with
      | nil => intro _; simp [sortJsonList]
      | cons x xs ihl =>
        intro hmem
        simp only [sortJsonList]
        rw [hmem x (List.mem_cons_self x xs),
          ihl (fun y hy => hmem y (List.mem_cons_of_mem x hy))]
    simp only [sortJson]
    rw [hlist xs ih]
  | hobj kvs ih =>
    have hpairs : ∀ l : List (List Char × Json),
        (∀ p ∈ l, sortJson (sortJson p.2) = sortJson p.2) →
        sortJsonPairs (sortJsonPairs l) = sortJsonPairs l := by
      intro l
      induction l with
      | nil => intro _; simp [sortJsonPairs]
      | cons p ps ihl =>
        intro hmem
        obtain ⟨k, v⟩ := p
        simp only [sortJsonPairs]
        rw [show sortJson (sortJson v) = sortJson v from
            hmem (k, v) (List.mem_cons_self _ ps),
          ihl (fun q hq => hmem q (List.mem_cons_of_mem _ hq))]
    simp only [sortJson]
    rw [sortJsonPairs_sortPairs, hpairs kvs ih, sortPairs_idem]

/-- A complete decode of the printed form of any value returns exactly that
value. -/
theorem jsonLoads_dump (w : Json) : jsonLoads (dumpVal 0 w) = some w := by
  have hskip : skipWs (dumpVal 0 w) = dumpVal 0 w := by
    have := skipWs_dump 0 w []
    simpa using this
  have hfuel : jfuel w ≤ (dumpVal 0 w).length + 1 := by
    have := jfuel_le_dump w 0
    omega
  have hP := (parse_dump ((dumpVal 0 w).length + 1)).1 w 0 [] hfuel (by simp [firstNonDigit])
  rw [jsonLoads, hskip]
  rw [show dumpVal 0 w ++ [] = dumpVal 0 w from by simp] at hP
  rw [hP]
  simp [skipWs]

/-- The produced bytes decode to the sorted context, and re-encoding yields
the same bytes: the round-trip of the claim. -/
theorem jsonDumps_roundtrip (v : Json) :
    jsonLoads (jsonDumps v) = some (sortJson v) ∧
      jsonDumps (sortJson v) = jsonDumps v := by
  constructor
  · exact jsonLoads_dump (sortJson v)
  · simp only [jsonDumps]
    rw [sortJson_idem]


/-- Claim C4: for every context, the json step's `execute_first` returns the
context serialized by `json.dumps(context, indent=2, sort_keys=True)` encoded
as UTF-8 in a `DocumentFile` of format JSON, and the output round-trips:
decoding the produced bytes as JSON and re-encoding with sorted keys and
indent 2 yields exactly the original bytes. -/
theorem claim_C4_json_step_roundtrip (context : Json) :
    jsonStepExecuteFirst context =
      .ok ⟨FileFormats.JSON, String.mk (jsonDumps context), "utf-8"⟩ ∧
    ∃ w, jsonLoads (jsonDumps context) = some w ∧
      jsonDumps w = jsonDumps context :=
  ⟨rfl, sortJson context, (jsonDumps_roundtrip context).1,
    (jsonDumps_roundtrip context).2⟩


/-- Claim C5, instantiated: `markdown` into `docx` is accepted, `pdf` as a
`from` option is rejected. -/
theorem claim_C5_pandoc_format_sets_witness :
    isOkE (pandocInit "markdown" "docx") = true ∧
    ¬ isOkE (pandocInit "pdf" "html") = true :=
  ⟨(claim_C5_pandoc_format_sets "markdown" "docx").mpr (by decide),
   fun h => by
    have hmem := (claim_C5_pandoc_format_sets "pdf" "html").mp h
    revert hmem
    decide⟩

end DocWorker
